import Mathlib

/-!
Verification development for the intent-routing and interaction-coordination
subsystem of the `ollie` voice assistant: a shallow embedding in Lean 4 of
`ollie/core/skill.py`, `ollie/core/orchestrator.py`, `ollie/skills/timer.py`,
`ollie/main.py` (the `speak`/`listen` tuning and echo-suppression sequence)
and `ollie/core/config.py`, together with theorems about the embedded code.

Conventions of the embedding:
* Python `str` is modelled by Lean `String`; character-class predicates
  (`\s`, `\d`, `\w`, `str.lower`, `str.strip`) use their ASCII meaning.
* Python `float` quantities relevant here are exact decimal literals and are
  modelled by `Rat` (no float arithmetic is performed on them in the code
  under study beyond comparison/addition with exact values).
* Exceptions are modelled by `Except`; the asyncio event loop is modelled by
  atomic steps of an explicit transition system (code between two `await`
  points runs without interleaving).
-/

/-- A single quote character, kept out of string literals. -/
def sQuote : String := String.mk [Char.ofNat 39]

/-- Python ASCII whitespace, the characters `str.strip()` and regex blank
class recognise in the ASCII range. -/
def pyIsSpace (c : Char) : Bool :=
  c = ' ' ∨ c = '\t' ∨ c = '\n' ∨ c = '\r' ∨ c = Char.ofNat 11 ∨ c = Char.ofNat 12

/-- Python `str.strip()` with no argument: remove leading and trailing
whitespace (ASCII model). -/
def pyStrip (s : String) : String :=
  String.mk (((s.data.dropWhile pyIsSpace).reverse.dropWhile pyIsSpace).reverse)

/-- Python `str.lower()` (ASCII model). -/
def pyLower (s : String) : String :=
  String.mk (s.data.map Char.toLower)

/-- Python `needle in haystack` substring test. -/
def pyContains (haystack needle : String) : Bool :=
  decide (needle.data <:+: haystack.data)

/-- Values stored in Python dicts of this code base (`extracted` entity maps
and `SkillResult.data`): strings and ints are the only value shapes used. -/
inductive PyVal where
  | PStr (s : String)
  | PInt (n : Int)
deriving DecidableEq, Repr

/-- Python `dict[str, Any]` as an insertion-ordered association list
(all dicts built by this code have distinct keys). -/
abbrev PyDict := List (String × PyVal)

/-- Python `d[k]` and `d.get(k)` lookup. -/
def dictGet (d : PyDict) (k : String) : Option PyVal :=
  (d.find? (fun kv => kv.1 = k)).map (·.2)

/-- `SkillConfidence` enum from `ollie/core/skill.py`. -/
inductive SkillConfidence where
  | NO_MATCH
  | LOW
  | MEDIUM
  | HIGH
  | EXACT
deriving DecidableEq, Repr

namespace SkillConfidence

/-- The `.value` of each enum member (`NO_MATCH = 0`, …, `EXACT = 4`). -/
def value : SkillConfidence → Nat
  | NO_MATCH => 0
  | LOW => 1
  | MEDIUM => 2
  | HIGH => 3
  | EXACT => 4

end SkillConfidence

/-- `SkillResult` dataclass from `ollie/core/skill.py`. -/
structure SkillResult where
  success : Bool
  response : String
  data : PyDict := []
  speak : Option String := none
deriving DecidableEq, Repr

namespace SkillResult

/-- `SkillResult.error` classmethod. -/
def error (message : String) : SkillResult :=
  { success := false, response := message }

/-- `SkillResult.ok` classmethod: keyword arguments become the data dict. -/
def ok (response : String) (data : PyDict := []) : SkillResult :=
  { success := true, response := response, data := data }

end SkillResult

/-- A skill as the orchestrator sees it: a name, a `match` operation
returning a confidence and extracted entities, and an `execute` operation
that may raise (modelled by `Except String`). The `self` reference a Python
`SkillMatch` carries is recovered by the orchestrator pairing each match
result with the skill that produced it, which is how every concrete skill
builds its `SkillMatch` (via the `_match`/`_no_match` helpers with
`skill=self`). -/
structure Skill where
  name : String
  matchFn : String → SkillConfidence × PyDict
  execFn : String → PyDict → Except String SkillResult

/-- `SkillMatch` dataclass from `ollie/core/skill.py`. -/
structure SkillMatch where
  skill : Skill
  confidence : SkillConfidence
  extracted : PyDict

/-- Observable calls the orchestrator makes into skills; `process` below is
instrumented to log them so that claims about which skills are contacted can
be stated. -/
inductive CallEvent where
  | matchCall (skillName : String)
  | execCall (skillName : String)

/-- The name in an `execCall` event, `none` for a `matchCall`. -/
def CallEvent.execName : CallEvent → Option String
  | .execCall n => some n
  | .matchCall _ => none

/-- The best-match selection loop of `Orchestrator.process`
(`ollie/core/orchestrator.py`, lines 41-46): iterate the gathered match
results in registration order, skip `NO_MATCH`, and replace the running best
only when the candidate confidence value is strictly greater. -/
def selectBest : List SkillMatch → Option SkillMatch → Option SkillMatch
  | [], best => best
  | m :: ms, best =>
    if m.confidence = SkillConfidence.NO_MATCH then
      selectBest ms best
    else
      match best with
      | none => selectBest ms (some m)
      | some b =>
        if m.confidence.value > b.confidence.value then
          selectBest ms (some m)
        else
          selectBest ms (some b)

/-- The fixed empty-input error message of `Orchestrator.process`. -/
def didntCatchMsg : String :=
  "I didn" ++ sQuote ++ "t catch that. Could you say it again?"

/-- `Orchestrator._fallback_response`. -/
def fallbackResponse (_query : String) : SkillResult :=
  { success := true
    response :=
      "I" ++ sQuote ++ "m not sure how to help with that yet. " ++
      "I can help with weather, news, timers, jokes, flights, travel times, and recipes." }

/-- The error message built when the selected skill raises
(`Orchestrator.process`, lines 54-58). -/
def skillErrorMsg (skillName : String) : String :=
  "Sorry, I had trouble with that. " ++ skillName ++ " encountered an error."

/-- `Orchestrator.process` (`ollie/core/orchestrator.py`): trim, reject empty
input, gather all match results (in registration order, as `asyncio.gather`
preserves argument order), select the best, fall back or execute it, catching
execution errors. The second component logs the skill calls performed. -/
def Orchestrator.process (skills : List Skill) (query : String) :
    SkillResult × List CallEvent :=
  let q := pyStrip query
  if q = "" then
    (SkillResult.error didntCatchMsg, [])
  else
    let matchList := skills.map
      (fun sk => SkillMatch.mk sk (sk.matchFn q).1 (sk.matchFn q).2)
    let matchTrace := skills.map (fun sk => CallEvent.matchCall sk.name)
    match selectBest matchList none with
    | none => (fallbackResponse q, matchTrace)
    | some best =>
      match best.skill.execFn q best.extracted with
      | .ok r => (r, matchTrace ++ [CallEvent.execCall best.skill.name])
      | .error _ =>
        (SkillResult.error (skillErrorMsg best.skill.name),
         matchTrace ++ [CallEvent.execCall best.skill.name])

-- ---- Python `re` for the timer skill (backtracking semantics, ASCII model) ----

/-- Python regex `\d` (ASCII model). -/
def reDigit (c : Char) : Bool := c.isDigit

/-- Python regex `.`: any character except a newline. -/
def reDot (c : Char) : Bool := c ≠ '\n'

/-- Python regex `\w` (ASCII model): alphanumeric or underscore. -/
def wordChar (c : Char) : Bool := c.isAlphanum ∨ c = '_'

/-- Abstract syntax covering exactly the constructs used by the timer
skill's patterns: string literals, greedy `C+` and `C*` over a character
class, optional groups `(?:…)?`, ordered alternation and concatenation. -/
inductive RE where
  | lit (s : String)
  | plus (cls : Char → Bool)
  | star (cls : Char → Bool)
  | opt (r : RE)
  | alt (a b : RE)
  | seq (a b : RE)

/-- Length of the maximal prefix of a string satisfying a character class. -/
def maxRun (cls : Char → Bool) : List Char → Nat
  | [] => 0
  | c :: cs => if cls c then maxRun cls cs + 1 else 0

/-- Greedy backtracking over a counted repetition: try consuming `n` then
`n-1`, … down to `lo` characters, handing the remaining suffix to the
continuation `k`; the first success wins (Python `re` order). -/
def tryLens (k : List Char → Option (List Char)) (s : List Char) (lo : Nat) :
    Nat → Option (List Char)
  | 0 => k s
  | Nat.succ n =>
    match k (s.drop (n + 1)) with
    | some r => some r
    | none => if n + 1 ≤ lo then none else tryLens k s lo n

/-- Backtracking matcher in continuation-passing style (standard Python
`re` semantics for this fragment): `reMatch r s k` attempts to match `r` at
the head of `s` and passes each candidate remainder to `k`, preferring
greedy/first-alternative choices. -/
def reMatch : RE → List Char → (List Char → Option (List Char)) → Option (List Char)
  | .lit l, s, k => if l.data.isPrefixOf s then k (s.drop l.length) else none
  | .plus cls, s, k =>
    let n := maxRun cls s
    if n = 0 then none else tryLens k s 1 n
  | .star cls, s, k => tryLens k s 0 (maxRun cls s)
  | .opt r, s, k =>
    match reMatch r s k with
    | some res => some res
    | none => k s
  | .alt a b, s, k =>
    match reMatch a s k with
    | some res => some res
    | none => reMatch b s k
  | .seq a b, s, k => reMatch a s (fun rest => reMatch b rest k)

/-- Python `re.search`: find the leftmost position where the pattern
matches and return the matched text (`group(0)`). -/
def reSearch (r : RE) : List Char → Option (List Char)
  | [] =>
    match reMatch r [] some with
    | some _ => some []
    | none => none
  | c :: t =>
    match reMatch r (c :: t) some with
    | some rest => some ((c :: t).take ((c :: t).length - rest.length))
    | none => reSearch r t

/-- Right-nested concatenation of a pattern list. -/
def reSeqAll : List RE → RE
  | [] => .lit ""
  | [r] => r
  | r :: rest => .seq r (reSeqAll rest)

/-- The alternation `(?:set|start|create)`. -/
def setStartCreate : RE := .alt (.lit "set") (.alt (.lit "start") (.lit "create"))

/-- The alternation `(second|minute|hour)`. -/
def unitAlt : RE := .alt (.lit "second") (.alt (.lit "minute") (.lit "hour"))

/-- The alternation `(?:cancel|stop|delete|remove)`. -/
def cancelVerb : RE := .alt (.lit "cancel") (.alt (.lit "stop") (.alt (.lit "delete") (.lit "remove")))

/-- `TimerSkill.SET_PATTERNS` (`ollie/skills/timer.py`, lines 37-42):
the four raw patterns, in order. -/
def SET_PATTERNS : List RE :=
  [ -- (?:set|start|create)\s+(?:a\s+)?timer\s+(?:for\s+)?(.+)
    reSeqAll [setStartCreate, .plus pyIsSpace,
      .opt (reSeqAll [.lit "a", .plus pyIsSpace]), .lit "timer", .plus pyIsSpace,
      .opt (reSeqAll [.lit "for", .plus pyIsSpace]), .plus reDot],
    -- timer\s+(?:for\s+)?(.+)
    reSeqAll [.lit "timer", .plus pyIsSpace,
      .opt (reSeqAll [.lit "for", .plus pyIsSpace]), .plus reDot],
    -- (?:set|start)\s+(?:a\s+)?(\d+)\s*(second|minute|hour)
    reSeqAll [.alt (.lit "set") (.lit "start"), .plus pyIsSpace,
      .opt (reSeqAll [.lit "a", .plus pyIsSpace]), .plus reDigit, .star pyIsSpace, unitAlt],
    -- (\d+)\s*(second|minute|hour)\s*timer
    reSeqAll [.plus reDigit, .star pyIsSpace, unitAlt, .star pyIsSpace, .lit "timer"] ]

/-- `TimerSkill.LIST_PATTERNS` (lines 44-48). -/
def LIST_PATTERNS : List RE :=
  [ -- (?:what|which|list|show)\s+timers?
    reSeqAll [.alt (.lit "what") (.alt (.lit "which") (.alt (.lit "list") (.lit "show"))),
      .plus pyIsSpace, .lit "timer", .opt (.lit "s")],
    -- timers?\s+(?:running|active|left)
    reSeqAll [.lit "timer", .opt (.lit "s"), .plus pyIsSpace,
      .alt (.lit "running") (.alt (.lit "active") (.lit "left"))],
    -- how\s+(?:much|long)\s+(?:time\s+)?(?:left|remaining)
    reSeqAll [.lit "how", .plus pyIsSpace, .alt (.lit "much") (.lit "long"),
      .plus pyIsSpace, .opt (reSeqAll [.lit "time", .plus pyIsSpace]),
      .alt (.lit "left") (.lit "remaining")] ]

/-- `TimerSkill.CANCEL_PATTERNS` (lines 50-53). -/
def CANCEL_PATTERNS : List RE :=
  [ -- (?:cancel|stop|delete|remove)\s+(?:the\s+)?timer
    reSeqAll [cancelVerb, .plus pyIsSpace,
      .opt (reSeqAll [.lit "the", .plus pyIsSpace]), .lit "timer"],
    -- (?:cancel|stop|delete|remove)\s+(?:all\s+)?timers?
    reSeqAll [cancelVerb, .plus pyIsSpace,
      .opt (reSeqAll [.lit "all", .plus pyIsSpace]), .lit "timer", .opt (.lit "s")] ]

-- ---- `TimerSkill._parse_duration` ----

/-- Python `int` of a digit string. -/
def digitsToNat (ds : List Char) : Nat :=
  ds.foldl (fun a c => a * 10 + (c.toNat - 48)) 0

/-- Match `(\d+)\s*(?:u1|u2)s?` at the head of `s` (the shape shared by the
three unit patterns of `_parse_duration`). The greedy choices cannot
overshoot: a digit or a blank can never begin a unit word, so maximal munch
coincides with Python's backtracking. On success, returns
`(int(group(1)), total characters consumed)`; the digit group is nonempty,
so the consumed count is at least 1. -/
def unitMatchAt (u1 u2 : String) (s : List Char) : Option (Nat × Nat) :=
  let digits := s.takeWhile reDigit
  if digits.length = 0 then none
  else
    let rest1 := s.drop digits.length
    let sp := (rest1.takeWhile pyIsSpace).length
    let rest2 := rest1.drop sp
    let unitLen : Option Nat :=
      if u1.data.isPrefixOf rest2 then some u1.length
      else if u2.data.isPrefixOf rest2 then some u2.length
      else none
    match unitLen with
    | none => none
    | some ul =>
      let rest3 := rest2.drop ul
      let sFlag : Nat :=
        match rest3 with
        | c :: _ => if c = 's' then 1 else 0
        | [] => 0
      some (digitsToNat digits, digits.length + sp + ul + sFlag)

/-- Worker for `re.finditer` over `(\d+)\s*(?:u1|u2)s?`: scan left to
right, yield each non-overlapping match's `int(group(1))`, and resume
right after it. A match consumes at least one character (its digit group
is nonempty), so resuming at `t.drop (consumed - 1)` drops exactly
`consumed` characters of `c :: t`; every iteration shortens the input, so
a fuel equal to the input length (see `unitFindAll`) is never exhausted. -/
def unitFindAllGo (u1 u2 : String) : Nat → List Char → List Nat
  | 0, _ => []
  | _ + 1, [] => []
  | fuel + 1, c :: t =>
    match unitMatchAt u1 u2 (c :: t) with
    | some (n, consumed) => n :: unitFindAllGo u1 u2 fuel (t.drop (consumed - 1))
    | none => unitFindAllGo u1 u2 fuel t

/-- Python `re.finditer` over `(\d+)\s*(?:u1|u2)s?` (see `unitFindAllGo`). -/
def unitFindAll (u1 u2 : String) (s : List Char) : List Nat :=
  unitFindAllGo u1 u2 s.length s

/-- `TimerSkill._parse_duration` (lines 173-189): lowercase, sum
`int(group(1)) * multiplier` over every `finditer` match of the hour,
minute and second patterns, and return the total only if positive
(Python returns `None` otherwise). -/
def parse_duration (text : String) : Option Nat :=
  let t := (pyLower text).data
  let total :=
    (unitFindAll "hour" "hr" t).foldl (fun a n => a + n * 3600) 0 +
    (unitFindAll "minute" "min" t).foldl (fun a n => a + n * 60) 0 +
    (unitFindAll "second" "sec" t).foldl (fun a n => a + n * 1) 0
  if total > 0 then some total else none

-- ---- `TimerSkill.match` ----

/-- The SET_PATTERNS loop of `TimerSkill.match` (lines 65-73): for each
pattern in order, search the lowered query; on a match, parse
`group(0)`; if the parsed duration is truthy (not `None` and non-zero)
return it, otherwise fall through to the next pattern. -/
def trySetPatterns : List RE → List Char → Option Nat
  | [], _ => none
  | p :: ps, ql =>
    match reSearch p ql with
    | some g0 =>
      match parse_duration (String.mk g0) with
      | some d => if d = 0 then trySetPatterns ps ql else some d
      | none => trySetPatterns ps ql
    | none => trySetPatterns ps ql

/-- `TimerSkill.match` (lines 60-89): set, then list, then cancel pattern
groups, then a weak match if "timer" is merely mentioned; the pair returned
is (confidence, extracted-entities dict). -/
def timerSkillMatch (query : String) : SkillConfidence × PyDict :=
  let ql := (pyLower query).data
  match trySetPatterns SET_PATTERNS ql with
  | some duration =>
    (SkillConfidence.HIGH,
     [("action", PyVal.PStr "set"), ("duration_seconds", PyVal.PInt duration)])
  | none =>
    if LIST_PATTERNS.any (fun p => (reSearch p ql).isSome) then
      (SkillConfidence.HIGH, [("action", PyVal.PStr "list")])
    else if CANCEL_PATTERNS.any (fun p => (reSearch p ql).isSome) then
      (SkillConfidence.HIGH, [("action", PyVal.PStr "cancel")])
    else if pyContains (String.mk ql) "timer" then
      (SkillConfidence.LOW, [("action", PyVal.PStr "unknown")])
    else
      (SkillConfidence.NO_MATCH, [])

-- ---- `TimerSkill._extract_timer_name` ----

/-- Python `str.title()` (ASCII model): uppercase a letter that follows a
non-letter, lowercase every other letter. -/
def pyTitle (s : String) : String :=
  String.mk ((s.data.foldl
    (fun (acc : List Char × Bool) c =>
      if c.isAlpha then
        (acc.1 ++ [if acc.2 then c.toLower else c.toUpper], true)
      else (acc.1 ++ [c], false))
    ([], false)).1)

/-- Match `(?:called|named)\s+(\w+)` at the head of `s`, returning
`group(1)`. Maximal munch is faithful: shortening `\s+` leaves a blank
where a word character is required. -/
def calledNamedAt (s : List Char) : Option (List Char) :=
  let afterKw : Option (List Char) :=
    if ("called" : String).data.isPrefixOf s then some (s.drop 6)
    else if ("named" : String).data.isPrefixOf s then some (s.drop 5)
    else none
  match afterKw with
  | none => none
  | some r1 =>
    let sp := (r1.takeWhile pyIsSpace).length
    if sp = 0 then none
    else
      let w := (r1.drop sp).takeWhile wordChar
      if w.length = 0 then none else some w

/-- `re.search` for `(?:called|named)\s+(\w+)`: leftmost match wins. -/
def calledNamedSearch : List Char → Option (List Char)
  | [] => none
  | c :: t =>
    match calledNamedAt (c :: t) with
    | some w => some w
    | none => calledNamedSearch t

/-- Backtracking for `(\w+)\s+timer` anchored at one position: try the
group length from `n` (the maximal word run) down to 1; `\s+` is maximal
munch (shortening it leaves a blank where the literal `t` is required). -/
def wordTimerTry (s : List Char) : Nat → Option (List Char)
  | 0 => none
  | Nat.succ n =>
    let rest := s.drop (n + 1)
    let sp := (rest.takeWhile pyIsSpace).length
    if sp ≠ 0 ∧ ("timer" : String).data.isPrefixOf (rest.drop sp) then
      some (s.take (n + 1))
    else
      wordTimerTry s n

/-- Match `(\w+)\s+timer` at the head of `s`, returning `group(1)`. -/
def wordTimerAt (s : List Char) : Option (List Char) :=
  wordTimerTry s (s.takeWhile wordChar).length

/-- `re.search` for `(\w+)\s+timer`: leftmost match wins. -/
def wordTimerSearch : List Char → Option (List Char)
  | [] => none
  | c :: t =>
    match wordTimerAt (c :: t) with
    | some w => some w
    | none => wordTimerSearch t

/-- The stop-word set of `_extract_timer_name`. -/
def timerNameStopWords : List String :=
  ["a", "the", "set", "start", "for", "minute", "second", "hour"]

/-- `TimerSkill._extract_timer_name` (lines 209-222): try the two name
patterns in order on the lowered query; a captured word that is a stop word
falls through to the next pattern; a surviving word is returned in title
case, else `None`. -/
def extract_timer_name (query : String) : Option String :=
  let ql := (pyLower query).data
  let second : Option String :=
    match wordTimerSearch ql with
    | some w2 =>
      if String.mk w2 ∈ timerNameStopWords then none
      else some (pyTitle (String.mk w2))
    | none => none
  match calledNamedSearch ql with
  | some w =>
    if String.mk w ∈ timerNameStopWords then second
    else some (pyTitle (String.mk w))
  | none => second

-- ---- `TimerSkill._format_duration` ----

/-- `TimerSkill._format_duration` (lines 191-207). Python `divmod` is
floor division, hence `Int.ediv`/`Int.emod`; seconds are only shown below
one hour. -/
def format_duration (seconds : Int) : String :=
  if seconds < 60 then
    toString seconds ++ " second" ++ (if seconds ≠ 1 then "s" else "")
  else
    let minutesAll := Int.ediv seconds 60
    let secs := Int.emod seconds 60
    let hours := Int.ediv minutesAll 60
    let minutes := Int.emod minutesAll 60
    let parts : List String :=
      (if hours ≠ 0 then
        [toString hours ++ " hour" ++ (if hours ≠ 1 then "s" else "")] else []) ++
      (if minutes ≠ 0 then
        [toString minutes ++ " minute" ++ (if minutes ≠ 1 then "s" else "")] else []) ++
      (if secs ≠ 0 ∧ hours = 0 then
        [toString secs ++ " second" ++ (if secs ≠ 1 then "s" else "")] else [])
    String.intercalate " " parts

-- ---- The timer subsystem (`TimerSkill` state and asyncio tasks) ----

/-- `Timer` dataclass (`ollie/skills/timer.py`, lines 12-20); the `task`
handle is modelled in the task registry of `TimerSys`. -/
structure Timer where
  id : Nat
  name : String
  duration_seconds : Int
  end_time : ℚ
deriving DecidableEq, Repr

/-- Status of a countdown task in the asyncio loop: still inside
`asyncio.sleep`, completed its body, or cancelled (`Task.cancel()` delivers
`CancelledError` at the sleep, so a cancelled task never runs its body —
including when cancellation is requested after the sleep future completed
but before the task was resumed). -/
inductive TaskStatus where
  | sleeping
  | done
  | cancelled
deriving DecidableEq, Repr

/-- A countdown task: the `Timer` object captured by `_timer_countdown`
together with its status. -/
structure TaskRec where
  timer : Timer
  status : TaskStatus
deriving DecidableEq, Repr

/-- State of the timer subsystem: the `TimerSkill` fields (`timers`, an
insertion-ordered dict, and `next_id`), the current clock
(`datetime.now()`), the registry of every countdown task created so far,
and the observable history: completion-callback invocations (`firedLog`,
in order) and effective task cancellations (`cancelledLog`). -/
structure TimerSys where
  timers : List (Nat × Timer)
  nextId : Nat
  now : ℚ
  tasks : List (Nat × TaskRec)
  firedLog : List Timer
  cancelledLog : List Nat
deriving DecidableEq, Repr

/-- `TimerSkill.__init__` at clock value `t0`. -/
def TimerSys.init (t0 : ℚ) : TimerSys :=
  { timers := [], nextId := 1, now := t0, tasks := [], firedLog := [], cancelledLog := [] }

/-- Dict lookup on a Nat-keyed association list. -/
def keyLookup {α : Type} (l : List (Nat × α)) (k : Nat) : Option α :=
  (l.find? (fun kv => kv.1 = k)).map (·.2)

/-- Python `k in d` on a Nat-keyed dict. -/
def keyContains {α : Type} (l : List (Nat × α)) (k : Nat) : Bool :=
  l.any (fun kv => kv.1 = k)

/-- Python `del d[k]` (keys are unique; relative order is preserved). -/
def keyErase {α : Type} (l : List (Nat × α)) (k : Nat) : List (Nat × α) :=
  l.filter (fun kv => ¬ kv.1 = k)

/-- Set the status of the task with key `k`. -/
def setStatus (l : List (Nat × TaskRec)) (k : Nat) (st : TaskStatus) :
    List (Nat × TaskRec) :=
  l.map (fun kv => if kv.1 = k then (kv.1, { kv.2 with status := st }) else kv)

/-- `TimerSkill._set_timer` (lines 106-131): allocate the next id, derive
the name from the query (or the default), compute the deadline, create the
countdown task (sleeping) and insert the timer into the active map — all
before the next `await`, hence atomically — and return the confirmation. -/
def set_timer (s : TimerSys) (duration_seconds : Int) (query : String) :
    SkillResult × TimerSys :=
  let timer_id := s.nextId
  let name := (extract_timer_name query).getD ("Timer " ++ toString timer_id)
  let end_time := s.now + (duration_seconds : ℚ)
  let timer : Timer :=
    { id := timer_id, name := name, duration_seconds := duration_seconds,
      end_time := end_time }
  let s' : TimerSys :=
    { s with nextId := s.nextId + 1,
             timers := s.timers ++ [(timer_id, timer)],
             tasks := s.tasks ++
               [(timer_id, { timer := timer, status := TaskStatus.sleeping })] }
  let duration_str := format_duration duration_seconds
  (SkillResult.ok ("Timer set for " ++ duration_str ++ ".")
      [("timer_id", PyVal.PInt timer_id), ("duration", PyVal.PStr duration_str)],
   s')

/-- The body of `TimerSkill._timer_countdown` (lines 133-140) resuming
after `asyncio.sleep` for the task of timer `tid`: the task completes; if
the id is still in the active map, the entry is deleted and then the
completion callback is invoked with the captured `Timer` (appended to
`firedLog`) — deletion happens before the callback. -/
def fire_timer (s : TimerSys) (tid : Nat) : TimerSys :=
  match keyLookup s.tasks tid with
  | some tr =>
    let s1 := { s with tasks := setStatus s.tasks tid TaskStatus.done }
    if keyContains s1.timers tid then
      { s1 with timers := keyErase s1.timers tid,
                firedLog := s1.firedLog ++ [tr.timer] }
    else s1
  | none => s

/-- `TimerSkill._cancel_timers` (lines 157-171): count the active map;
if empty report so; otherwise call `Task.cancel()` on every entry's task
(effective only while the task still sleeps), clear the map, and report
the count. -/
def cancel_timers (s : TimerSys) : SkillResult × TimerSys :=
  let count := s.timers.length
  if count = 0 then (SkillResult.ok "No timers to cancel.", s)
  else
    let ids := s.timers.map (·.1)
    let effective := ids.filter (fun i =>
      match keyLookup s.tasks i with
      | some tr => tr.status = TaskStatus.sleeping
      | none => false)
    let s' : TimerSys :=
      { s with
        tasks := s.tasks.map (fun kv =>
          if kv.1 ∈ ids ∧ kv.2.status = TaskStatus.sleeping then
            (kv.1, { kv.2 with status := TaskStatus.cancelled })
          else kv),
        timers := [],
        cancelledLog := s.cancelledLog ++ effective }
    (SkillResult.ok
        ("Cancelled " ++ toString count ++ " timer" ++
          (if count > 1 then "s" else "") ++ ".")
        [("cancelled", PyVal.PInt count)],
     s')

/-- `TimerSkill._list_timers` (lines 142-155): snapshot against the clock
at call time; the loop emits a line only for timers whose remaining time is
positive (`int()` on a positive value is its floor); the reported count is
the full map size. -/
def list_timers (s : TimerSys) : SkillResult :=
  if s.timers.length = 0 then SkillResult.ok "No timers are running."
  else
    let lines : List String :=
      ["Active timers:"] ++
      s.timers.filterMap (fun kv =>
        let remaining := kv.2.end_time - s.now
        if 0 < remaining then
          some ("  • " ++ kv.2.name ++ ": " ++
            format_duration (Int.floor remaining) ++ " remaining")
        else none)
    SkillResult.ok (String.intercalate "\n" lines)
      [("count", PyVal.PInt s.timers.length)]

/-- Exceptions `TimerSkill.execute` can raise. -/
inductive PyErr where
  | keyError (k : String)
  | typeError
deriving DecidableEq, Repr

/-- `TimerSkill.execute` (lines 91-104): dispatch on
`extracted.get("action", "unknown")`. The `"set"` branch subscripts
`extracted["duration_seconds"]` without a guard: a missing key raises
`KeyError`; a non-int value would fail inside `timedelta`. The unknown
branch returns (not raises) an error result. -/
def timerSkillExecute (s : TimerSys) (query : String) (extracted : PyDict) :
    Except PyErr (SkillResult × TimerSys) :=
  let action := (dictGet extracted "action").getD (PyVal.PStr "unknown")
  if action = PyVal.PStr "set" then
    match dictGet extracted "duration_seconds" with
    | none => Except.error (PyErr.keyError "duration_seconds")
    | some (PyVal.PStr _) => Except.error PyErr.typeError
    | some (PyVal.PInt d) => Except.ok (set_timer s d query)
  else if action = PyVal.PStr "list" then
    Except.ok (list_timers s, s)
  else if action = PyVal.PStr "cancel" then
    Except.ok (cancel_timers s)
  else
    Except.ok
      (SkillResult.error
        "I can set a timer, list active timers, or cancel timers. What would you like?",
       s)

/-- Atomic steps of the timer subsystem under the single-threaded asyncio
loop (code between two awaits never interleaves): setting a timer; a
countdown task resuming after its sleep — possible only once the deadline
has passed and only while the task was not cancelled; cancelling all
timers; and the clock advancing. -/
inductive TStep : TimerSys → TimerSys → Prop
  | set (s : TimerSys) (d : Int) (q : String) : TStep s (set_timer s d q).2
  | fire (s : TimerSys) (tid : Nat) (tr : TaskRec)
      (htr : keyLookup s.tasks tid = some tr)
      (hsleep : tr.status = TaskStatus.sleeping)
      (hdl : tr.timer.end_time ≤ s.now) :
      TStep s (fire_timer s tid)
  | cancelAll (s : TimerSys) : TStep s (cancel_timers s).2
  | advance (s : TimerSys) (d : ℚ) (hd : 0 ≤ d) :
      TStep s { s with now := s.now + d }

/-- States reachable from a freshly-constructed `TimerSkill`. -/
inductive TReach : TimerSys → Prop
  | init (t0 : ℚ) : TReach (TimerSys.init t0)
  | step {s s' : TimerSys} : TReach s → TStep s s' → TReach s'

/-- Zero or more steps. -/
def TSteps : TimerSys → TimerSys → Prop := Relation.ReflTransGen TStep

/-- The standing invariant of the timer subsystem, maintained by every
step: active-map entries have sleeping tasks and vice versa; registry keys
and map keys are unique and below `next_id`; every fired snapshot is the
registry timer of a task that completed; callback invocations are
at-most-once per id; every recorded cancellation is a cancelled task. -/
structure TInv (s : TimerSys) : Prop where
  map_sleeping : ∀ tid t, (tid, t) ∈ s.timers →
    keyLookup s.tasks tid = some { timer := t, status := TaskStatus.sleeping }
  sleeping_in_map : ∀ tid tr, (tid, tr) ∈ s.tasks →
    tr.status = TaskStatus.sleeping → (tid, tr.timer) ∈ s.timers
  tasks_nodup : (s.tasks.map (·.1)).Nodup
  tasks_id : ∀ tid tr, (tid, tr) ∈ s.tasks → tr.timer.id = tid ∧ tid < s.nextId
  timers_nodup : (s.timers.map (·.1)).Nodup
  fired_done : ∀ t ∈ s.firedLog,
    keyLookup s.tasks t.id = some { timer := t, status := TaskStatus.done }
  fired_nodup : (s.firedLog.map Timer.id).Nodup
  cancelled_cancelled : ∀ tid ∈ s.cancelledLog,
    ∃ tr, keyLookup s.tasks tid = some tr ∧ tr.status = TaskStatus.cancelled

/-- Example trace state: a 5-second timer set at clock 0 via the query
"set a timer for 5 seconds". -/
def exSet5 : TimerSys := (set_timer (TimerSys.init 0) 5 "set a timer for 5 seconds").2

/-- `exSet5` after the clock advanced by 1 (timer still pending). -/
def exSet5At1 : TimerSys := { exSet5 with now := exSet5.now + 1 }

/-- `exSet5` after the clock advanced by 6 (deadline passed, countdown task
not yet resumed by the event loop). -/
def exSet5At6 : TimerSys := { exSet5 with now := exSet5.now + 6 }

-- ---- Wake detector and the speaking sequence ----

/-- An audio chunk (1280 samples in the code); its content is irrelevant
to the coordination claims. -/
abbrev Frame := List Int

/-- State of `OpenWakeWordDetector` (`ollie/voice/wakeword_oww.py`)
relevant to echo suppression: the `_paused` flag, the frames queued in the
arecord pipe (written continuously by the capture process, drained by
`_read_audio_chunk`, emptied by `flush_audio_buffer`), and the frames the
openWakeWord model has consumed since its last `reset()` (its streaming
state). `loaded` stands for `self._loaded and self.model is not None`. -/
structure OWWDetector where
  loaded : Bool
  paused : Bool
  pipe : List Frame
  modelHistory : List Frame
deriving DecidableEq, Repr

namespace OWWDetector

/-- `process_audio` (lines 126-151): when unloaded or paused the chunk is
dropped — nothing is buffered, the model is not fed — and `False` is
returned; otherwise the model consumes the chunk and `score` (supplied by
the environment, since the model is opaque) is compared with the
threshold; a detection resets the model state. -/
def process_audio (st : OWWDetector) (chunk : Frame) (score threshold : ℚ) :
    Bool × OWWDetector :=
  if ¬ st.loaded ∨ st.paused then (false, st)
  else
    let st1 := { st with modelHistory := st.modelHistory ++ [chunk] }
    if score > threshold then (true, { st1 with modelHistory := [] })
    else (false, st1)

/-- `pause` (lines 153-157): set the flag and reset the model. -/
def pause (st : OWWDetector) : OWWDetector :=
  { st with paused := true, modelHistory := [] }

/-- `resume` (lines 159-163): reset the model, then clear the flag. -/
def resume (st : OWWDetector) : OWWDetector :=
  { st with modelHistory := [], paused := false }

/-- `flush_audio_buffer` (lines 165-182): read and discard everything
queued in the arecord pipe. -/
def flush_audio_buffer (st : OWWDetector) : OWWDetector :=
  { st with pipe := [] }

/-- The arecord capture process appending frames to the pipe (environment
action while the coordinator awaits). -/
def arrive (st : OWWDetector) (fs : List Frame) : OWWDetector :=
  { st with pipe := st.pipe ++ fs }

/-- `_read_audio_chunk` (lines 108-124): pop the next queued frame. -/
def read_audio_chunk (st : OWWDetector) : Option Frame × OWWDetector :=
  match st.pipe with
  | [] => (none, st)
  | f :: rest => (some f, { st with pipe := rest })

end OWWDetector

/-- Observable actions of one `OllieAssistant.speak` call, in order. -/
inductive SpeakEvent where
  | pausedDetection
  | synthesized (text : String) (ok : Bool)
  | sleptDecay (seconds : ℚ)
  | flushedBuffer
  | resumedDetection
deriving DecidableEq, Repr

/-- `OllieAssistant.speak` (`ollie/main.py`, lines 159-177): when TTS is
available, pause the wake detector (when one is present), synthesize —
a TTS error is caught and changes nothing else — wait the fixed 0.5 s
decay, flush the audio queued during playback, and only then resume
detection. `arrivingDuringTts` / `arrivingDuringDecay` are the frames the
capture process writes into the pipe while `speak` awaits synthesis and
the decay sleep; `speak` itself never reads or processes a frame. When
TTS is unavailable the call does nothing. -/
def OllieAssistant.speak (ttsAvailable wakewordPresent : Bool)
    (st : OWWDetector) (text : String) (ttsOk : Bool)
    (arrivingDuringTts arrivingDuringDecay : List Frame) :
    OWWDetector × List SpeakEvent :=
  if ttsAvailable then
    let st1 := if wakewordPresent then st.pause else st
    let st2 := st1.arrive arrivingDuringTts
    let st3 := st2.arrive arrivingDuringDecay
    let st4 := if wakewordPresent then st3.flush_audio_buffer else st3
    let st5 := if wakewordPresent then st4.resume else st4
    (st5,
      (if wakewordPresent then [SpeakEvent.pausedDetection] else []) ++
      [SpeakEvent.synthesized text ttsOk, SpeakEvent.sleptDecay (1/2)] ++
      (if wakewordPresent then [SpeakEvent.flushedBuffer, SpeakEvent.resumedDetection]
       else []))
  else (st, [])

-- ---- Configuration (`ollie/core/config.py`) and voice-loop tuning ----

/-- `Settings` (`ollie/core/config.py`): the pydantic settings model;
float fields are exact decimal literals, `Path` fields are kept as their
string form. -/
structure Settings where
  openweathermap_api_key : String := ""
  newsapi_key : String := ""
  aeroapi_key : String := ""
  openrouteservice_api_key : String := ""
  spoonacular_api_key : String := ""
  anthropic_api_key : String := ""
  deepgram_api_key : String := ""
  opensky_username : String := ""
  opensky_password : String := ""
  default_location : String := "Edgewood, WA"
  default_lat : ℚ := 472540/10000
  default_lon : ℚ := -1222937/10000
  llm_model_path : String := "./models/phi-3-mini-4k-instruct-q4.gguf"
  llm_context_size : Int := 2048
  llm_max_tokens : Int := 256
  use_mock_llm : Bool := true
  piper_model_path : String := "./models/en_US-lessac-medium.onnx"
  whisper_model_size : String := "base"
  wake_word : String := "ollie"
  wake_word_threshold : ℚ := 1/2
  tts_enabled : Bool := true
  audio_input_device : String := "respeaker"
deriving DecidableEq, Repr

/-- The tuning thresholds governing the voice loop named by the spec. -/
structure VoiceTuning where
  wake_threshold_default : ℚ
  wake_threshold_custom : ℚ
  capture_timeout_default : ℚ
  capture_timeout_used : ℚ
  vad_high_level : ℚ
  vad_low_level : ℚ
  min_speech_chunks : Nat
  silence_threshold : ℚ
  post_speech_decay : ℚ
deriving DecidableEq, Repr

/-- The thresholds the voice loop actually uses, as a function of the
application settings: `OllieAssistant.setup` passes the literal `0.5`
(`0.3` with a custom model) as the wake threshold (`ollie/main.py`,
line 125); `listen` hard-codes its default timeout 5.0 (line 179), the
VAD levels 500/300 (lines 211, 213), `min_speech_chunks = 15` (line 192)
and `silence_threshold = 0.8` (line 191); `run` calls
`listen(timeout=6.0)` (line 326); `speak` sleeps the literal 0.5
(line 172). None of these reads `settings`. -/
def voiceTuning (_settings : Settings) : VoiceTuning :=
  { wake_threshold_default := 1/2,
    wake_threshold_custom := 3/10,
    capture_timeout_default := 5,
    capture_timeout_used := 6,
    vad_high_level := 500,
    vad_low_level := 300,
    min_speech_chunks := 15,
    silence_threshold := 8/10,
    post_speech_decay := 1/2 }

/-- The wake-word threshold `setup` hands to the detector
(`ollie/main.py`, line 125): `0.5 if not use_custom else 0.3`. -/
def wakeThresholdUsed (_settings : Settings) (useCustomModel : Bool) : ℚ :=
  if useCustomModel then 3/10 else 1/2

-- ===================== THEOREMS =====================

/-- A confidence has value 0 exactly when it is `NO_MATCH`. -/
lemma SkillConfidence.value_eq_zero_iff (c : SkillConfidence) :
    c.value = 0 ↔ c = SkillConfidence.NO_MATCH := by
  cases c <;> simp [SkillConfidence.value]

/-- A non-`NO_MATCH` confidence has positive value. -/
lemma SkillConfidence.value_pos (c : SkillConfidence)
    (h : c ≠ SkillConfidence.NO_MATCH) : 0 < c.value := by
  cases c <;> simp_all [SkillConfidence.value]

/-- If every gathered match is `NO_MATCH`, the selection loop keeps its
accumulator. -/
lemma selectBest_all_nomatch (ms : List SkillMatch) (acc : Option SkillMatch)
    (h : ∀ m ∈ ms, m.confidence = SkillConfidence.NO_MATCH) :
    selectBest ms acc = acc := by
  induction ms with
  | nil => rfl
  | cons m ms ih =>
    have hm := h m (by simp)
    simp only [selectBest, hm, if_pos rfl]
    exact ih (fun x hx => h x (by simp [hx]))

/-- Characterization of the selection loop run with a present accumulator:
either the accumulator survives and dominates every element, or the result is
the element at the first index where the running best strictly increased to
its final value — it strictly dominates the accumulator and everything
before it, and (weakly) dominates everything in the list. -/
lemma selectBest_some_spec (ms : List SkillMatch) (bm : SkillMatch) :
    (selectBest ms (some bm) = some bm ∧
      ∀ i mi, ms.get? i = some mi → mi.confidence.value ≤ bm.confidence.value)
    ∨ (∃ j mj, ms.get? j = some mj ∧ selectBest ms (some bm) = some mj ∧
        bm.confidence.value < mj.confidence.value ∧
        (∀ i mi, i < j → ms.get? i = some mi →
          mi.confidence.value < mj.confidence.value) ∧
        (∀ i mi, ms.get? i = some mi →
          mi.confidence.value ≤ mj.confidence.value)) := by
  induction ms generalizing bm with
  | nil =>
    left
    refine ⟨rfl, ?_⟩
    intro i mi h
    simp [List.get?] at h
  | cons m ms ih =>
    by_cases hnm : m.confidence = SkillConfidence.NO_MATCH
    · have hstep : selectBest (m :: ms) (some bm) = selectBest ms (some bm) := by
        simp [selectBest, hnm]
      rcases ih bm with ⟨heq, hle⟩ | ⟨j, mj, hget, heq, hgt, hstrict, hle⟩
      · left
        refine ⟨hstep ▸ heq, ?_⟩
        intro i mi hi
        cases i with
        | zero =>
          simp only [List.get?] at hi
          cases hi
          simp [hnm, SkillConfidence.value]
        | succ i => exact hle i mi hi
      · right
        refine ⟨j + 1, mj, hget, hstep ▸ heq, hgt, ?_, ?_⟩
        · intro i mi hij hi
          cases i with
          | zero =>
            simp only [List.get?] at hi
            cases hi
            have : 0 < mj.confidence.value := Nat.lt_of_le_of_lt (Nat.zero_le _) hgt
            simpa [hnm, SkillConfidence.value]
          | succ i => exact hstrict i mi (Nat.lt_of_succ_lt_succ hij) hi
        · intro i mi hi
          cases i with
          | zero =>
            simp only [List.get?] at hi
            cases hi
            simp [hnm, SkillConfidence.value]
          | succ i => exact hle i mi hi
    · by_cases hgt0 : m.confidence.value > bm.confidence.value
      · have hstep : selectBest (m :: ms) (some bm) = selectBest ms (some m) := by
          simp [selectBest, hnm, hgt0]
        rcases ih m with ⟨heq, hle⟩ | ⟨j, mj, hget, heq, hgt, hstrict, hle⟩
        · right
          refine ⟨0, m, rfl, hstep ▸ heq, hgt0, ?_, ?_⟩
          · intro i mi hij _
            exact absurd hij (Nat.not_lt_zero i)
          · intro i mi hi
            cases i with
            | zero =>
              simp only [List.get?] at hi
              cases hi
              exact Nat.le_refl _
            | succ i => exact hle i mi hi
        · right
          refine ⟨j + 1, mj, hget, hstep ▸ heq, Nat.lt_trans hgt0 hgt, ?_, ?_⟩
          · intro i mi hij hi
            cases i with
            | zero =>
              simp only [List.get?] at hi
              cases hi
              exact hgt
            | succ i => exact hstrict i mi (Nat.lt_of_succ_lt_succ hij) hi
          · intro i mi hi
            cases i with
            | zero =>
              simp only [List.get?] at hi
              cases hi
              exact Nat.le_of_lt hgt
            | succ i => exact hle i mi hi
      · have hle0 : m.confidence.value ≤ bm.confidence.value := Nat.le_of_not_lt hgt0
        have hstep : selectBest (m :: ms) (some bm) = selectBest ms (some bm) := by
          simp [selectBest, hnm, hgt0]
        rcases ih bm with ⟨heq, hle⟩ | ⟨j, mj, hget, heq, hgt, hstrict, hle⟩
        · left
          refine ⟨hstep ▸ heq, ?_⟩
          intro i mi hi
          cases i with
          | zero =>
            simp only [List.get?] at hi
            cases hi
            exact hle0
          | succ i => exact hle i mi hi
        · right
          refine ⟨j + 1, mj, hget, hstep ▸ heq, hgt, ?_, ?_⟩
          · intro i mi hij hi
            cases i with
            | zero =>
              simp only [List.get?] at hi
              cases hi
              exact Nat.lt_of_le_of_lt hle0 hgt
            | succ i => exact hstrict i mi (Nat.lt_of_succ_lt_succ hij) hi
          · intro i mi hi
            cases i with
            | zero =>
              simp only [List.get?] at hi
              cases hi
              exact Nat.le_trans hle0 (Nat.le_of_lt hgt)
            | succ i => exact hle i mi hi

/-- Characterization of the full selection (empty accumulator) when at least
one match is not `NO_MATCH`: the result is the element at the least index
attaining the maximal confidence value. -/
lemma selectBest_none_spec (ms : List SkillMatch)
    (h : ∃ i mi, ms.get? i = some mi ∧ mi.confidence ≠ SkillConfidence.NO_MATCH) :
    ∃ j mj, ms.get? j = some mj ∧ selectBest ms none = some mj ∧
      mj.confidence ≠ SkillConfidence.NO_MATCH ∧
      (∀ i mi, ms.get? i = some mi →
        mi.confidence.value ≤ mj.confidence.value) ∧
      (∀ i mi, i < j → ms.get? i = some mi →
        mi.confidence.value < mj.confidence.value) := by
  induction ms with
  | nil =>
    obtain ⟨i, mi, hi, _⟩ := h
    simp [List.get?] at hi
  | cons m ms ih =>
    by_cases hnm : m.confidence = SkillConfidence.NO_MATCH
    · have hstep : selectBest (m :: ms) none = selectBest ms none := by
        simp [selectBest, hnm]
      have hex : ∃ i mi, ms.get? i = some mi ∧
          mi.confidence ≠ SkillConfidence.NO_MATCH := by
        obtain ⟨i, mi, hi, hne⟩ := h
        cases i with
        | zero =>
          simp only [List.get?] at hi
          cases hi
          exact absurd hnm hne
        | succ i => exact ⟨i, mi, hi, hne⟩
      obtain ⟨j, mj, hget, heq, hne, hle, hstrict⟩ := ih hex
      refine ⟨j + 1, mj, hget, hstep ▸ heq, hne, ?_, ?_⟩
      · intro i mi hi
        cases i with
        | zero =>
          simp only [List.get?] at hi
          cases hi
          simp [hnm, SkillConfidence.value]
        | succ i => exact hle i mi hi
      · intro i mi hij hi
        cases i with
        | zero =>
          simp only [List.get?] at hi
          cases hi
          have := SkillConfidence.value_pos mj.confidence hne
          simpa [hnm, SkillConfidence.value]
        | succ i => exact hstrict i mi (Nat.lt_of_succ_lt_succ hij) hi
    · have hstep : selectBest (m :: ms) none = selectBest ms (some m) := by
        simp [selectBest, hnm]
      rcases selectBest_some_spec ms m with ⟨heq, hle⟩ | ⟨j, mj, hget, heq, hgt, hstrict, hle⟩
      · refine ⟨0, m, rfl, hstep ▸ heq, hnm, ?_, ?_⟩
        · intro i mi hi
          cases i with
          | zero =>
            simp only [List.get?] at hi
            cases hi
            exact Nat.le_refl _
          | succ i => exact hle i mi hi
        · intro i mi hij _
          exact absurd hij (Nat.not_lt_zero i)
      · have hne : mj.confidence ≠ SkillConfidence.NO_MATCH := by
          intro hc
          have h0 : mj.confidence.value = 0 := by simp [hc, SkillConfidence.value]
          have := SkillConfidence.value_pos m.confidence hnm
          omega
        refine ⟨j + 1, mj, hget, hstep ▸ heq, hne, ?_, ?_⟩
        · intro i mi hi
          cases i with
          | zero =>
            simp only [List.get?] at hi
            cases hi
            exact Nat.le_of_lt hgt
          | succ i => exact hle i mi hi
        · intro i mi hij hi
          cases i with
          | zero =>
            simp only [List.get?] at hi
            cases hi
            exact hgt
          | succ i => exact hstrict i mi (Nat.lt_of_succ_lt_succ hij) hi

/-- The selection loop never returns a `NO_MATCH` result when started with an
accumulator that is not `NO_MATCH` (in particular when started empty). -/
lemma selectBest_ne_nomatch (ms : List SkillMatch) (acc : Option SkillMatch)
    (hacc : ∀ b, acc = some b → b.confidence ≠ SkillConfidence.NO_MATCH)
    (best : SkillMatch) (h : selectBest ms acc = some best) :
    best.confidence ≠ SkillConfidence.NO_MATCH := by
  induction ms generalizing acc with
  | nil =>
    simp only [selectBest] at h
    exact hacc best h
  | cons m ms ih =>
    by_cases hnm : m.confidence = SkillConfidence.NO_MATCH
    · simp only [selectBest, hnm, if_pos rfl] at h
      exact ih acc hacc h
    · cases acc with
      | none =>
        simp only [selectBest, hnm, if_neg hnm] at h
        exact ih (some m) (by intro b hb; cases hb; exact hnm) h
      | some b =>
        simp only [selectBest, hnm, if_neg hnm] at h
        by_cases hgt : m.confidence.value > b.confidence.value
        · rw [if_pos hgt] at h
          exact ih (some m) (by intro x hx; cases hx; exact hnm) h
        · rw [if_neg hgt] at h
          exact ih (some b) (by intro x hx; cases hx; exact hacc b rfl) h

/-- The match-call half of the trace contains no execute events. -/
lemma matchTrace_no_exec (skills : List Skill) :
    (skills.map (fun sk => CallEvent.matchCall sk.name)).filterMap CallEvent.execName = [] := by
  induction skills with
  | nil => rfl
  | cons sk skills ih => simp [List.filterMap, CallEvent.execName, ih]

/-- C6: for every input that strips to the empty string, `process` returns the
fixed "didn't catch that" error result (success=false) and the call trace is
empty: no registered skill's `match` or `execute` is invoked. -/
theorem process_empty_query_fixed_error (skills : List Skill) (query : String)
    (h : pyStrip query = "") :
    Orchestrator.process skills query =
      ({ success := false, response := didntCatchMsg }, []) := by
  simp [Orchestrator.process, h, SkillResult.error]

/-- Witness for C6 at the concrete whitespace-only input `"   "`. -/
theorem process_empty_query_fixed_error_witness :
    pyStrip "   " = "" ∧
    Orchestrator.process [] "   " = ({ success := false, response := didntCatchMsg }, []) :=
  ⟨by decide, process_empty_query_fixed_error [] "   " (by decide)⟩

/-- C7: if every registered skill reports `NO_MATCH`, `process` returns the
fixed success=true fallback enumerating capability categories and no
`execute` is invoked; moreover, in general, a `NO_MATCH` result is never
selected by the best-match loop. -/
theorem process_all_nomatch_fallback (skills : List Skill) (query : String)
    (h1 : pyStrip query ≠ "")
    (h2 : ∀ sk ∈ skills, (sk.matchFn (pyStrip query)).1 = SkillConfidence.NO_MATCH) :
    (Orchestrator.process skills query).1 = fallbackResponse (pyStrip query) ∧
    (Orchestrator.process skills query).1.success = true ∧
    (Orchestrator.process skills query).2.filterMap CallEvent.execName = [] ∧
    (∀ ms best, selectBest ms none = some best →
      best.confidence ≠ SkillConfidence.NO_MATCH) := by
  have hsel : selectBest (skills.map
      (fun sk => SkillMatch.mk sk (sk.matchFn (pyStrip query)).1
        (sk.matchFn (pyStrip query)).2)) none = none := by
    apply selectBest_all_nomatch
    intro m hm
    obtain ⟨sk, hsk, rfl⟩ := List.mem_map.mp hm
    exact h2 sk hsk
  have hproc : Orchestrator.process skills query =
      (fallbackResponse (pyStrip query),
       skills.map (fun sk => CallEvent.matchCall sk.name)) := by
    simp only [Orchestrator.process]
    rw [if_neg h1, hsel]
  refine ⟨by rw [hproc], by rw [hproc]; rfl, ?_, ?_⟩
  · rw [hproc]
    exact matchTrace_no_exec skills
  · intro ms best hbest
    exact selectBest_ne_nomatch ms none (by intro b hb; cases hb) best hbest

/-- Witness for C7: one registered skill that reports `NO_MATCH` on the
query "hello". -/
theorem process_all_nomatch_fallback_witness :
    (pyStrip "hello" ≠ "") ∧
    ((Orchestrator.process
        [{ name := "noop",
           matchFn := fun _ => (SkillConfidence.NO_MATCH, []),
           execFn := fun _ _ => Except.ok (SkillResult.ok "unused") }] "hello").1
      = fallbackResponse (pyStrip "hello")) := by
  have h1 : pyStrip "hello" ≠ "" := by decide
  have h := process_all_nomatch_fallback
    [{ name := "noop",
       matchFn := fun _ => (SkillConfidence.NO_MATCH, []),
       execFn := fun _ _ => Except.ok (SkillResult.ok "unused") }] "hello" h1
    (by
      intro sk hsk
      simp at hsk
      rw [hsk])
  exact ⟨h1, h.1⟩

/-- C5: when the best-matching skill's `execute` raises, `process` catches the
error and returns success=false with a message naming that skill, and the
only `execute` invoked in the whole call is that skill's. -/
theorem process_exec_error_named (skills : List Skill) (query : String)
    (best : SkillMatch) (emsg : String)
    (h1 : pyStrip query ≠ "")
    (hsel : selectBest (skills.map
      (fun sk => SkillMatch.mk sk (sk.matchFn (pyStrip query)).1
        (sk.matchFn (pyStrip query)).2)) none = some best)
    (herr : best.skill.execFn (pyStrip query) best.extracted = Except.error emsg) :
    (Orchestrator.process skills query).1 =
      SkillResult.error (skillErrorMsg best.skill.name) ∧
    (Orchestrator.process skills query).1.success = false ∧
    best.skill.name.data <:+: (Orchestrator.process skills query).1.response.data ∧
    (Orchestrator.process skills query).2.filterMap CallEvent.execName =
      [best.skill.name] := by
  have hproc : Orchestrator.process skills query =
      (SkillResult.error (skillErrorMsg best.skill.name),
       (skills.map (fun sk => CallEvent.matchCall sk.name)) ++
         [CallEvent.execCall best.skill.name]) := by
    simp only [Orchestrator.process]
    rw [if_neg h1, hsel]
    dsimp only
    rw [herr]
  refine ⟨by rw [hproc], by rw [hproc]; rfl, ?_, ?_⟩
  · rw [hproc]
    show best.skill.name.data <:+: (skillErrorMsg best.skill.name).data
    refine ⟨("Sorry, I had trouble with that. " : String).data,
      (" encountered an error." : String).data, ?_⟩
    simp [skillErrorMsg, String.data_append]
  · rw [hproc]
    simp only [List.filterMap_append, matchTrace_no_exec]
    rfl

/-- Witness for C5: a single registered skill whose `execute` raises. -/
theorem process_exec_error_named_witness :
    ((Orchestrator.process
        [{ name := "timer",
           matchFn := fun _ => (SkillConfidence.HIGH, []),
           execFn := fun _ _ => Except.error "boom" }] "set a timer").1
      = SkillResult.error (skillErrorMsg "timer")) ∧
    ((Orchestrator.process
        [{ name := "timer",
           matchFn := fun _ => (SkillConfidence.HIGH, []),
           execFn := fun _ _ => Except.error "boom" }] "set a timer").2.filterMap
        CallEvent.execName = ["timer"]) := by
  have h := process_exec_error_named
    [{ name := "timer",
       matchFn := fun _ => (SkillConfidence.HIGH, []),
       execFn := fun _ _ => Except.error "boom" }] "set a timer"
    (SkillMatch.mk
      { name := "timer",
        matchFn := fun _ => (SkillConfidence.HIGH, []),
        execFn := fun _ _ => Except.error "boom" } SkillConfidence.HIGH [])
    "boom" (by decide) rfl rfl
  exact ⟨h.1, h.2.2.2⟩

/-- C1: for every registered skill list and every query that is non-empty
after trimming, if some skill matches (not `NO_MATCH`), then `process`
executes exactly the earliest-registered skill attaining the maximal
confidence value: every skill's confidence is at most the executed skill's,
every earlier-registered skill's confidence is strictly below it (so on a
tie the earliest-registered skill wins, and a later-registered skill is
executed only when strictly greater), and the final result is that skill's
execution outcome (or the caught-error result). -/
theorem process_executes_earliest_strict_max (skills : List Skill) (query : String)
    (h1 : pyStrip query ≠ "")
    (h2 : ∃ i sk, skills.get? i = some sk ∧
      (sk.matchFn (pyStrip query)).1 ≠ SkillConfidence.NO_MATCH) :
    ∃ j skj, skills.get? j = some skj ∧
      (skj.matchFn (pyStrip query)).1 ≠ SkillConfidence.NO_MATCH ∧
      (∀ i ski, skills.get? i = some ski →
        ((ski.matchFn (pyStrip query)).1).value ≤ ((skj.matchFn (pyStrip query)).1).value) ∧
      (∀ i ski, i < j → skills.get? i = some ski →
        ((ski.matchFn (pyStrip query)).1).value < ((skj.matchFn (pyStrip query)).1).value) ∧
      (Orchestrator.process skills query).2.filterMap CallEvent.execName = [skj.name] ∧
      (Orchestrator.process skills query).1 =
        (match skj.execFn (pyStrip query) ((skj.matchFn (pyStrip query)).2) with
         | .ok r => r
         | .error _ => SkillResult.error (skillErrorMsg skj.name)) := by
  classical
  set q := pyStrip query with hqdef
  set f : Skill → SkillMatch :=
    fun sk => SkillMatch.mk sk (sk.matchFn q).1 (sk.matchFn q).2 with hfdef
  set ms := skills.map f with hmsdef
  have hget : ∀ i, ms.get? i = (skills.get? i).map f := by
    intro i
    simp [hmsdef, List.get?_map]
  obtain ⟨i0, sk0, hsk0, hne0⟩ := h2
  have hmex : ∃ i mi, ms.get? i = some mi ∧
      mi.confidence ≠ SkillConfidence.NO_MATCH := by
    refine ⟨i0, f sk0, ?_, hne0⟩
    rw [hget, hsk0]
    rfl
  obtain ⟨j, mj, hj, hsel, hnej, hle, hstrict⟩ := selectBest_none_spec ms hmex
  rw [hget j] at hj
  cases hskj : skills.get? j with
  | none =>
    rw [hskj] at hj
    cases hj
  | some skj =>
    rw [hskj] at hj
    have hmj : mj = f skj := by
      simpa using hj.symm
    subst hmj
    have hproc : Orchestrator.process skills query =
        (match skj.execFn q ((skj.matchFn q).2) with
         | .ok r => (r, (skills.map fun sk => CallEvent.matchCall sk.name) ++
             [CallEvent.execCall skj.name])
         | .error _ => (SkillResult.error (skillErrorMsg skj.name),
             (skills.map fun sk => CallEvent.matchCall sk.name) ++
             [CallEvent.execCall skj.name])) := by
      simp only [Orchestrator.process]
      rw [if_neg h1]
      rw [show (skills.map fun sk =>
        SkillMatch.mk sk (sk.matchFn (pyStrip query)).1 (sk.matchFn (pyStrip query)).2) = ms
        from rfl]
      rw [hsel]
    refine ⟨j, skj, hskj, hnej, ?_, ?_, ?_, ?_⟩
    · intro i ski hi
      exact hle i (f ski) (by rw [hget, hi]; rfl)
    · intro i ski hij hi
      exact hstrict i (f ski) hij (by rw [hget, hi]; rfl)
    · rw [hproc]
      cases hexec : skj.execFn q ((skj.matchFn q).2) <;>
        simp [List.filterMap_append, matchTrace_no_exec, CallEvent.execName, List.filterMap]
    · rw [hproc]
      cases hexec : skj.execFn q ((skj.matchFn q).2) <;> rfl

/-- Witness for C1: two skills registered in order, both reporting `HIGH`;
the earliest-registered one is the unique executed skill. -/
theorem process_executes_earliest_strict_max_witness :
    ∃ j skj,
      [({ name := "skillA",
          matchFn := fun _ => (SkillConfidence.HIGH, []),
          execFn := fun _ _ => Except.ok (SkillResult.ok "A ran") } : Skill),
       ({ name := "skillB",
          matchFn := fun _ => (SkillConfidence.HIGH, []),
          execFn := fun _ _ => Except.ok (SkillResult.ok "B ran") } : Skill)].get? j
        = some skj ∧
      (skj.matchFn (pyStrip "do the thing")).1 ≠ SkillConfidence.NO_MATCH ∧
      (∀ i ski,
        ([({ name := "skillA",
             matchFn := fun _ => (SkillConfidence.HIGH, []),
             execFn := fun _ _ => Except.ok (SkillResult.ok "A ran") } : Skill),
          ({ name := "skillB",
             matchFn := fun _ => (SkillConfidence.HIGH, []),
             execFn := fun _ _ => Except.ok (SkillResult.ok "B ran") } : Skill)].get? i
          = some ski) →
        ((ski.matchFn (pyStrip "do the thing")).1).value ≤
          ((skj.matchFn (pyStrip "do the thing")).1).value) ∧
      (∀ i ski, i < j →
        ([({ name := "skillA",
             matchFn := fun _ => (SkillConfidence.HIGH, []),
             execFn := fun _ _ => Except.ok (SkillResult.ok "A ran") } : Skill),
          ({ name := "skillB",
             matchFn := fun _ => (SkillConfidence.HIGH, []),
             execFn := fun _ _ => Except.ok (SkillResult.ok "B ran") } : Skill)].get? i
          = some ski) →
        ((ski.matchFn (pyStrip "do the thing")).1).value <
          ((skj.matchFn (pyStrip "do the thing")).1).value) ∧
      ((Orchestrator.process
          [({ name := "skillA",
              matchFn := fun _ => (SkillConfidence.HIGH, []),
              execFn := fun _ _ => Except.ok (SkillResult.ok "A ran") } : Skill),
           ({ name := "skillB",
              matchFn := fun _ => (SkillConfidence.HIGH, []),
              execFn := fun _ _ => Except.ok (SkillResult.ok "B ran") } : Skill)]
          "do the thing").2.filterMap CallEvent.execName = [skj.name]) ∧
      ((Orchestrator.process
          [({ name := "skillA",
              matchFn := fun _ => (SkillConfidence.HIGH, []),
              execFn := fun _ _ => Except.ok (SkillResult.ok "A ran") } : Skill),
           ({ name := "skillB",
              matchFn := fun _ => (SkillConfidence.HIGH, []),
              execFn := fun _ _ => Except.ok (SkillResult.ok "B ran") } : Skill)]
          "do the thing").1 =
        (match skj.execFn (pyStrip "do the thing")
            ((skj.matchFn (pyStrip "do the thing")).2) with
         | .ok r => r
         | .error _ => SkillResult.error (skillErrorMsg skj.name))) :=
  process_executes_earliest_strict_max _ "do the thing" (by decide)
    ⟨0, _, rfl, by decide⟩

-- ---- Association-list helper lemmas ----

lemma keyLookup_cons {α : Type} (k₁ : Nat) (v₁ : α) (t : List (Nat × α)) (k : Nat) :
    keyLookup ((k₁, v₁) :: t) k = if k₁ = k then some v₁ else keyLookup t k := by
  by_cases h : k₁ = k <;> simp [keyLookup, List.find?, h]

lemma keyLookup_mem {α : Type} {l : List (Nat × α)} {k : Nat} {v : α}
    (h : keyLookup l k = some v) : (k, v) ∈ l := by
  induction l with
  | nil => simp [keyLookup] at h
  | cons kv t ih =>
    obtain ⟨k₁, v₁⟩ := kv
    rw [keyLookup_cons] at h
    by_cases hk : k₁ = k
    · rw [if_pos hk] at h
      injection h with hv
      subst hk
      subst hv
      exact List.mem_cons_self _ _
    · rw [if_neg hk] at h
      exact List.mem_cons_of_mem _ (ih h)

lemma mem_keyLookup {α : Type} {l : List (Nat × α)}
    (hnd : (l.map (·.1)).Nodup) {k : Nat} {v : α}
    (h : (k, v) ∈ l) : keyLookup l k = some v := by
  induction l with
  | nil => simp at h
  | cons kv t ih =>
    obtain ⟨k₁, v₁⟩ := kv
    simp only [List.map_cons, List.nodup_cons] at hnd
    rcases List.mem_cons.mp h with heq | hmem
    · injection heq with h1 h2
      subst h1
      subst h2
      rw [keyLookup_cons, if_pos rfl]
    · have hne : k₁ ≠ k := by
        intro hcon
        subst hcon
        exact hnd.1 (List.mem_map.mpr ⟨(k₁, v), hmem, rfl⟩)
      rw [keyLookup_cons, if_neg hne]
      exact ih hnd.2 hmem

lemma keyLookup_none {α : Type} {l : List (Nat × α)} {k : Nat}
    (h : ∀ kv ∈ l, kv.1 ≠ k) : keyLookup l k = none := by
  induction l with
  | nil => rfl
  | cons kv t ih =>
    obtain ⟨k₁, v₁⟩ := kv
    rw [keyLookup_cons, if_neg (h (k₁, v₁) (List.mem_cons_self _ _))]
    exact ih (fun x hx => h x (List.mem_cons_of_mem _ hx))

lemma keyLookup_append_of_some {α : Type} {l : List (Nat × α)} (m : List (Nat × α))
    {k : Nat} {v : α} (h : keyLookup l k = some v) :
    keyLookup (l ++ m) k = some v := by
  induction l with
  | nil => simp [keyLookup] at h
  | cons kv t ih =>
    obtain ⟨k₁, v₁⟩ := kv
    rw [keyLookup_cons] at h
    rw [List.cons_append, keyLookup_cons]
    by_cases hk : k₁ = k
    · rwa [if_pos hk] at h ⊢
    · rw [if_neg hk] at h ⊢
      exact ih h

lemma keyLookup_append_of_none {α : Type} {l : List (Nat × α)} (m : List (Nat × α))
    {k : Nat} (h : keyLookup l k = none) :
    keyLookup (l ++ m) k = keyLookup m k := by
  induction l with
  | nil => simp
  | cons kv t ih =>
    obtain ⟨k₁, v₁⟩ := kv
    rw [keyLookup_cons] at h
    rw [List.cons_append, keyLookup_cons]
    by_cases hk : k₁ = k
    · rw [if_pos hk] at h
      cases h
    · rw [if_neg hk] at h
      rw [if_neg hk]
      exact ih h

lemma keyLookup_map_adjust {α : Type} (g : Nat → α → α) (l : List (Nat × α)) (k : Nat) :
    keyLookup (l.map (fun kv => (kv.1, g kv.1 kv.2))) k = (keyLookup l k).map (g k) := by
  induction l with
  | nil => rfl
  | cons kv t ih =>
    obtain ⟨k₁, v₁⟩ := kv
    rw [List.map_cons, keyLookup_cons, keyLookup_cons]
    by_cases hk : k₁ = k
    · subst hk
      simp
    · rw [if_neg hk, if_neg hk]
      exact ih

lemma keyContains_iff {α : Type} (l : List (Nat × α)) (k : Nat) :
    keyContains l k = true ↔ ∃ v, (k, v) ∈ l := by
  unfold keyContains
  rw [List.any_eq_true]
  constructor
  · rintro ⟨⟨k₁, v₁⟩, hmem, hk⟩
    simp only [decide_eq_true_eq] at hk
    subst hk
    exact ⟨v₁, hmem⟩
  · rintro ⟨v, hmem⟩
    exact ⟨(k, v), hmem, by simp⟩

lemma keyErase_subset_mem {α : Type} {l : List (Nat × α)} {k : Nat} {kv : Nat × α}
    (h : kv ∈ keyErase l k) : kv ∈ l ∧ kv.1 ≠ k := by
  unfold keyErase at h
  have := List.mem_filter.mp h
  refine ⟨this.1, ?_⟩
  simpa using this.2

lemma mem_keyErase {α : Type} {l : List (Nat × α)} {k : Nat} {kv : Nat × α}
    (hmem : kv ∈ l) (hne : kv.1 ≠ k) : kv ∈ keyErase l k := by
  unfold keyErase
  exact List.mem_filter.mpr ⟨hmem, by simpa using hne⟩

lemma setStatus_eq_map_adjust (l : List (Nat × TaskRec)) (k : Nat) (st : TaskStatus) :
    setStatus l k st =
      l.map (fun kv => (kv.1, if kv.1 = k then { kv.2 with status := st } else kv.2)) := by
  unfold setStatus
  congr 1
  funext kv
  by_cases h : kv.1 = k
  · simp [h]
  · simp [h]

-- ---- Equation lemmas for the timer steps ----

lemma setStatus_keys (l : List (Nat × TaskRec)) (k : Nat) (st : TaskStatus) :
    (setStatus l k st).map (·.1) = l.map (·.1) := by
  rw [setStatus_eq_map_adjust]
  simp [List.map_map, Function.comp]

lemma setStatus_lookup (l : List (Nat × TaskRec)) (k : Nat) (st : TaskStatus) (k' : Nat) :
    keyLookup (setStatus l k st) k' =
      (keyLookup l k').map
        (fun v => if k' = k then { v with status := st } else v) := by
  rw [setStatus_eq_map_adjust]
  exact keyLookup_map_adjust
    (fun a v => if a = k then { v with status := st } else v) l k'

lemma set_timer_snd (s : TimerSys) (d : Int) (q : String) :
    (set_timer s d q).2 =
      (let tm : Timer :=
        { id := s.nextId,
          name := (extract_timer_name q).getD ("Timer " ++ toString s.nextId),
          duration_seconds := d, end_time := s.now + (d : ℚ) }
       { s with nextId := s.nextId + 1,
                timers := s.timers ++ [(s.nextId, tm)],
                tasks := s.tasks ++
                  [(s.nextId, { timer := tm, status := TaskStatus.sleeping })] }) := rfl

lemma fire_timer_eq_of_mem {s : TimerSys} {tid : Nat} {tr : TaskRec}
    (htr : keyLookup s.tasks tid = some tr)
    (hc : keyContains s.timers tid = true) :
    fire_timer s tid =
      { s with tasks := setStatus s.tasks tid TaskStatus.done,
               timers := keyErase s.timers tid,
               firedLog := s.firedLog ++ [tr.timer] } := by
  unfold fire_timer
  rw [htr]
  simp only [hc, if_true]

lemma fire_timer_eq_of_not_mem {s : TimerSys} {tid : Nat} {tr : TaskRec}
    (htr : keyLookup s.tasks tid = some tr)
    (hc : keyContains s.timers tid = false) :
    fire_timer s tid = { s with tasks := setStatus s.tasks tid TaskStatus.done } := by
  unfold fire_timer
  rw [htr]
  simp only [hc, if_false]
  rfl

/-- The cancellation map applied to the task registry by `_cancel_timers`. -/
lemma cancel_timers_snd_of_empty {s : TimerSys} (h : s.timers = []) :
    (cancel_timers s).2 = s := by
  unfold cancel_timers
  simp [h]

lemma cancel_timers_snd_of_nonempty {s : TimerSys} (h : s.timers ≠ []) :
    (cancel_timers s).2 =
      { s with
        tasks := s.tasks.map (fun kv =>
          if kv.1 ∈ s.timers.map (·.1) ∧ kv.2.status = TaskStatus.sleeping then
            (kv.1, { kv.2 with status := TaskStatus.cancelled })
          else kv),
        timers := [],
        cancelledLog := s.cancelledLog ++
          (s.timers.map (·.1)).filter (fun i =>
            match keyLookup s.tasks i with
            | some tr => tr.status = TaskStatus.sleeping
            | none => false) } := by
  unfold cancel_timers
  have hlen : s.timers.length ≠ 0 := by
    intro hc
    exact h (List.length_eq_zero.mp hc)
  simp only [hlen, if_neg, ite_false]

lemma cancel_timers_fst_of_nonempty {s : TimerSys} (h : s.timers ≠ []) :
    (cancel_timers s).1 =
      SkillResult.ok
        ("Cancelled " ++ toString s.timers.length ++ " timer" ++
          (if s.timers.length > 1 then "s" else "") ++ ".")
        [("cancelled", PyVal.PInt s.timers.length)] := by
  unfold cancel_timers
  have hlen : s.timers.length ≠ 0 := by
    intro hc
    exact h (List.length_eq_zero.mp hc)
  simp only [hlen, if_neg, ite_false]

-- ---- Invariant preservation ----

lemma TInv_init (t0 : ℚ) : TInv (TimerSys.init t0) := by
  refine ⟨?_, ?_, ?_, ?_, ?_, ?_, ?_, ?_⟩ <;> simp [TimerSys.init, keyLookup]

lemma TInv_set (s : TimerSys) (d : Int) (q : String) (hi : TInv s) :
    TInv (set_timer s d q).2 := by
  have hkeys : ∀ kv ∈ s.tasks, kv.1 ≠ s.nextId := by
    intro kv hkv
    have := (hi.tasks_id kv.1 kv.2 hkv).2
    omega
  have htkeys : ∀ kv ∈ s.timers, kv.1 ≠ s.nextId := by
    intro kv hkv
    have hl := hi.map_sleeping kv.1 kv.2 hkv
    have hmem := keyLookup_mem hl
    have := (hi.tasks_id kv.1 _ hmem).2
    omega
  rw [set_timer_snd]
  set tm : Timer :=
    { id := s.nextId,
      name := (extract_timer_name q).getD ("Timer " ++ toString s.nextId),
      duration_seconds := d, end_time := s.now + (d : ℚ) } with htm
  refine ⟨?_, ?_, ?_, ?_, ?_, ?_, ?_, ?_⟩
  · intro tid t hmem
    rcases List.mem_append.mp hmem with hold | hnew
    · exact keyLookup_append_of_some _ (hi.map_sleeping tid t hold)
    · simp only [List.mem_singleton, Prod.mk.injEq] at hnew
      obtain ⟨rfl, rfl⟩ := hnew
      rw [keyLookup_append_of_none _ (keyLookup_none hkeys)]
      rw [keyLookup_cons, if_pos rfl]
  · intro tid tr hmem hst
    rcases List.mem_append.mp hmem with hold | hnew
    · exact List.mem_append.mpr (Or.inl (hi.sleeping_in_map tid tr hold hst))
    · simp only [List.mem_singleton, Prod.mk.injEq] at hnew
      obtain ⟨rfl, rfl⟩ := hnew
      exact List.mem_append.mpr (Or.inr (by simp))
  · simp only [List.map_append, List.map_cons, List.map_nil]
    rw [List.nodup_append]
    refine ⟨hi.tasks_nodup, List.nodup_singleton _, ?_⟩
    intro a ha hb
    simp only [List.mem_singleton] at hb
    subst hb
    obtain ⟨kv, hkv, hk⟩ := List.mem_map.mp ha
    exact hkeys kv hkv hk
  · intro tid tr hmem
    rcases List.mem_append.mp hmem with hold | hnew
    · have := hi.tasks_id tid tr hold
      exact ⟨this.1, Nat.lt_succ_of_lt this.2⟩
    · simp only [List.mem_singleton, Prod.mk.injEq] at hnew
      obtain ⟨rfl, rfl⟩ := hnew
      exact ⟨rfl, Nat.lt_succ_self _⟩
  · simp only [List.map_append, List.map_cons, List.map_nil]
    rw [List.nodup_append]
    refine ⟨hi.timers_nodup, List.nodup_singleton _, ?_⟩
    intro a ha hb
    simp only [List.mem_singleton] at hb
    subst hb
    obtain ⟨kv, hkv, hk⟩ := List.mem_map.mp ha
    exact htkeys kv hkv hk
  · intro t ht
    exact keyLookup_append_of_some _ (hi.fired_done t ht)
  · exact hi.fired_nodup
  · intro tid h
    obtain ⟨tr, hl, hc⟩ := hi.cancelled_cancelled tid h
    exact ⟨tr, keyLookup_append_of_some _ hl, hc⟩

lemma TInv_fire (s : TimerSys) (tid : Nat) (tr : TaskRec)
    (htr : keyLookup s.tasks tid = some tr)
    (hsleep : tr.status = TaskStatus.sleeping)
    (hi : TInv s) : TInv (fire_timer s tid) := by
  have hkeys : (setStatus s.tasks tid TaskStatus.done).map (·.1) = s.tasks.map (·.1) :=
    setStatus_keys s.tasks tid TaskStatus.done
  have hlook : ∀ k, keyLookup (setStatus s.tasks tid TaskStatus.done) k =
      (keyLookup s.tasks k).map
        (fun v => if k = tid then { v with status := TaskStatus.done } else v) :=
    fun k => setStatus_lookup s.tasks tid TaskStatus.done k
  have htid : tr.timer.id = tid := (hi.tasks_id tid tr (keyLookup_mem htr)).1
  have hmemStatus : ∀ tid' tr', (tid', tr') ∈ setStatus s.tasks tid TaskStatus.done →
      ∃ tr₀, (tid', tr₀) ∈ s.tasks ∧
        tr' = (if tid' = tid then { tr₀ with status := TaskStatus.done } else tr₀) := by
    intro tid' tr' hmem
    rw [setStatus_eq_map_adjust] at hmem
    obtain ⟨kv, hkv, heq⟩ := List.mem_map.mp hmem
    injection heq with h1 h2
    subst h1
    exact ⟨kv.2, hkv, h2.symm⟩
  have hfired_ne : ∀ t ∈ s.firedLog, t.id ≠ tid := by
    intro t ht hcon
    have hd := hi.fired_done t ht
    rw [hcon, htr] at hd
    injection hd with hd
    rw [hd] at hsleep
    simp at hsleep
  by_cases hc : keyContains s.timers tid = true
  · rw [fire_timer_eq_of_mem htr hc]
    refine ⟨?_, ?_, ?_, ?_, ?_, ?_, ?_, ?_⟩
    · intro tid' t hmem
      obtain ⟨hmem', hne⟩ := keyErase_subset_mem hmem
      rw [hlook, hi.map_sleeping tid' t hmem']
      simp only [Option.map_some']
      rw [if_neg hne]
    · intro tid' tr' hmem hst
      obtain ⟨tr₀, hmem₀, heq⟩ := hmemStatus tid' tr' hmem
      by_cases h : tid' = tid
      · rw [if_pos h] at heq
        rw [heq] at hst
        simp at hst
      · rw [if_neg h] at heq
        subst heq
        exact mem_keyErase (hi.sleeping_in_map tid' tr' hmem₀ hst) h
    · rw [hkeys]
      exact hi.tasks_nodup
    · intro tid' tr' hmem
      obtain ⟨tr₀, hmem₀, heq⟩ := hmemStatus tid' tr' hmem
      have h₀ := hi.tasks_id tid' tr₀ hmem₀
      by_cases h : tid' = tid
      · rw [if_pos h] at heq
        subst heq
        exact h₀
      · rw [if_neg h] at heq
        subst heq
        exact h₀
    · have : (keyErase s.timers tid).map (·.1) |>.Sublist (s.timers.map (·.1)) :=
        List.Sublist.map _ (List.filter_sublist _)
      exact hi.timers_nodup.sublist this
    · intro t ht
      rcases List.mem_append.mp ht with hold | hnew
      · rw [hlook, hi.fired_done t hold]
        simp only [Option.map_some']
        rw [if_neg (hfired_ne t hold)]
      · simp only [List.mem_singleton] at hnew
        subst hnew
        rw [htid, hlook, htr]
        simp only [Option.map_some, if_pos rfl]
        rfl
    · simp only [List.map_append, List.map_cons, List.map_nil]
      rw [List.nodup_append]
      refine ⟨hi.fired_nodup, List.nodup_singleton _, ?_⟩
      intro a ha hb
      simp only [List.mem_singleton] at hb
      subst hb
      obtain ⟨t, ht, hidt⟩ := List.mem_map.mp ha
      exact hfired_ne t ht (hidt.trans htid)
    · intro tid' h
      obtain ⟨tr₀, hl, hcst⟩ := hi.cancelled_cancelled tid' h
      refine ⟨if tid' = tid then { tr₀ with status := TaskStatus.done } else tr₀, ?_, ?_⟩
      · rw [hlook, hl]
        rfl
      · by_cases h' : tid' = tid
        · exfalso
          rw [h', htr] at hl
          injection hl with hl
          rw [← hl] at hcst
          rw [hsleep] at hcst
          simp at hcst
        · rw [if_neg h']
          exact hcst
  · have hc' : keyContains s.timers tid = false := by
      revert hc
      cases keyContains s.timers tid <;> simp
    rw [fire_timer_eq_of_not_mem htr hc']
    refine ⟨?_, ?_, ?_, ?_, ?_, ?_, ?_, ?_⟩
    · intro tid' t hmem
      have hne : tid' ≠ tid := by
        intro hcon
        subst hcon
        have : ∃ v, (tid', v) ∈ s.timers := ⟨t, hmem⟩
        rw [← keyContains_iff] at this
        rw [this] at hc'
        cases hc'
      rw [hlook, hi.map_sleeping tid' t hmem]
      simp only [Option.map_some']
      rw [if_neg hne]
    · intro tid' tr' hmem hst
      obtain ⟨tr₀, hmem₀, heq⟩ := hmemStatus tid' tr' hmem
      by_cases h : tid' = tid
      · rw [if_pos h] at heq
        rw [heq] at hst
        simp at hst
      · rw [if_neg h] at heq
        subst heq
        exact hi.sleeping_in_map tid' tr' hmem₀ hst
    · rw [hkeys]
      exact hi.tasks_nodup
    · intro tid' tr' hmem
      obtain ⟨tr₀, hmem₀, heq⟩ := hmemStatus tid' tr' hmem
      have h₀ := hi.tasks_id tid' tr₀ hmem₀
      by_cases h : tid' = tid
      · rw [if_pos h] at heq
        subst heq
        exact h₀
      · rw [if_neg h] at heq
        subst heq
        exact h₀
    · exact hi.timers_nodup
    · intro t ht
      rw [hlook, hi.fired_done t ht]
      simp only [Option.map_some']
      rw [if_neg (hfired_ne t ht)]
    · exact hi.fired_nodup
    · intro tid' h
      obtain ⟨tr₀, hl, hcst⟩ := hi.cancelled_cancelled tid' h
      refine ⟨if tid' = tid then { tr₀ with status := TaskStatus.done } else tr₀, ?_, ?_⟩
      · rw [hlook, hl]
        rfl
      · by_cases h' : tid' = tid
        · exfalso
          rw [h', htr] at hl
          injection hl with hl
          rw [← hl] at hcst
          rw [hsleep] at hcst
          simp at hcst
        · rw [if_neg h']
          exact hcst

lemma TInv_cancel (s : TimerSys) (hi : TInv s) : TInv (cancel_timers s).2 := by
  by_cases hemp : s.timers = []
  · rw [cancel_timers_snd_of_empty hemp]
    exact hi
  · rw [cancel_timers_snd_of_nonempty hemp]
    set g : Nat → TaskRec → TaskRec := fun k v =>
      if k ∈ s.timers.map (·.1) ∧ v.status = TaskStatus.sleeping then
        { v with status := TaskStatus.cancelled }
      else v with hg
    have hmapeq : (s.tasks.map (fun kv =>
        if kv.1 ∈ s.timers.map (·.1) ∧ kv.2.status = TaskStatus.sleeping then
          (kv.1, { kv.2 with status := TaskStatus.cancelled })
        else kv)) = s.tasks.map (fun kv => (kv.1, g kv.1 kv.2)) := by
      congr 1
      funext kv
      by_cases h : kv.1 ∈ s.timers.map (·.1) ∧ kv.2.status = TaskStatus.sleeping
      · simp only [hg, if_pos h]
      · simp only [hg, if_neg h]
    have hlook : ∀ k, keyLookup (s.tasks.map (fun kv => (kv.1, g kv.1 kv.2))) k =
        (keyLookup s.tasks k).map (g k) := fun k => keyLookup_map_adjust g s.tasks k
    have hkeys : (s.tasks.map (fun kv => (kv.1, g kv.1 kv.2))).map (·.1) =
        s.tasks.map (·.1) := by
      simp [List.map_map, Function.comp]
    rw [hmapeq]
    refine ⟨?_, ?_, ?_, ?_, ?_, ?_, ?_, ?_⟩
    · intro tid t hmem
      simp at hmem
    · intro tid tr hmem hst
      obtain ⟨kv, hkv, heq⟩ := List.mem_map.mp hmem
      injection heq with h1 h2
      subst h1
      by_cases h : kv.1 ∈ s.timers.map (·.1) ∧ kv.2.status = TaskStatus.sleeping
      · rw [← h2] at hst
        simp only [hg, if_pos h] at hst
        simp at hst
      · have h2' : tr = kv.2 := by
          rw [← h2]
          simp only [hg, if_neg h]
        subst h2'
        exfalso
        apply h
        refine ⟨?_, hst⟩
        have := hi.sleeping_in_map kv.1 kv.2 hkv hst
        exact List.mem_map.mpr ⟨(kv.1, kv.2.timer), this, rfl⟩
    · rw [hkeys]
      exact hi.tasks_nodup
    · intro tid tr hmem
      obtain ⟨kv, hkv, heq⟩ := List.mem_map.mp hmem
      injection heq with h1 h2
      subst h1
      have h₀ := hi.tasks_id kv.1 kv.2 hkv
      have htm : tr.timer = kv.2.timer := by
        rw [← h2]
        by_cases h : kv.1 ∈ s.timers.map (·.1) ∧ kv.2.status = TaskStatus.sleeping
        · simp only [hg, if_pos h]
        · simp only [hg, if_neg h]
      rw [htm]
      exact h₀
    · simp
    · intro t ht
      rw [hlook, hi.fired_done t ht]
      simp only [Option.map_some']
      have : g t.id { timer := t, status := TaskStatus.done } =
          { timer := t, status := TaskStatus.done } := by
        simp [hg]
      rw [this]
    · exact hi.fired_nodup
    · intro tid h
      rcases List.mem_append.mp h with hold | hnew
      · obtain ⟨tr₀, hl, hcst⟩ := hi.cancelled_cancelled tid hold
        refine ⟨tr₀, ?_, hcst⟩
        rw [hlook, hl]
        simp only [Option.map_some']
        have : g tid tr₀ = tr₀ := by
          simp [hg, hcst]
        rw [this]
      · have hmm := List.mem_filter.mp hnew
        obtain ⟨hin, hsl⟩ := hmm
        cases hlk : keyLookup s.tasks tid with
        | none =>
          exfalso
          rw [hlk] at hsl
          simp at hsl
        | some tr₀ =>
          rw [hlk] at hsl
          simp only [decide_eq_true_eq] at hsl
          refine ⟨{ tr₀ with status := TaskStatus.cancelled }, ?_, rfl⟩
          rw [hlook, hlk]
          simp only [Option.map_some']
          have : g tid tr₀ = { tr₀ with status := TaskStatus.cancelled } := by
            simp [hg, hin, hsl]
          rw [this]

lemma TInv_advance (s : TimerSys) (d : ℚ) (hi : TInv s) :
    TInv { s with now := s.now + d } := by
  refine ⟨?_, ?_, ?_, ?_, ?_, ?_, ?_, ?_⟩
  · exact hi.map_sleeping
  · exact hi.sleeping_in_map
  · exact hi.tasks_nodup
  · exact hi.tasks_id
  · exact hi.timers_nodup
  · exact hi.fired_done
  · exact hi.fired_nodup
  · exact hi.cancelled_cancelled

/-- Every step preserves the invariant. -/
lemma TInv_step {s s' : TimerSys} (hi : TInv s) (h : TStep s s') : TInv s' := by
  cases h with
  | set d q => exact TInv_set s d q hi
  | fire tid tr htr hsleep hdl => exact TInv_fire s tid tr htr hsleep hi
  | cancelAll => exact TInv_cancel s hi
  | advance d hd => exact TInv_advance s d hi

/-- Every reachable state satisfies the invariant. -/
lemma TReach.inv {s : TimerSys} (h : TReach s) : TInv s := by
  induction h with
  | init t0 => exact TInv_init t0
  | step _ hstep ih => exact TInv_step ih hstep

/-- Reachability is closed under step sequences. -/
lemma TReach.steps {s s' : TimerSys} (h : TReach s) (hs : TSteps s s') : TReach s' := by
  induction hs with
  | refl => exact h
  | tail _ hstep ih => exact TReach.step ih hstep

/-- A task that is no longer sleeping keeps its record unchanged across any
single step (statuses `done` and `cancelled` are terminal). -/
lemma terminal_stable_step {s s' : TimerSys} (_hi : TInv s) (h : TStep s s')
    {tid : Nat} {tr : TaskRec} (hl : keyLookup s.tasks tid = some tr)
    (hterm : tr.status ≠ TaskStatus.sleeping) :
    keyLookup s'.tasks tid = some tr := by
  cases h with
  | set d q =>
    rw [set_timer_snd]
    exact keyLookup_append_of_some _ hl
  | fire tid' tr' htr' hsleep' hdl' =>
    have hne : tid ≠ tid' := by
      intro hcon
      subst hcon
      rw [hl] at htr'
      injection htr' with htr'
      rw [← htr'] at hsleep'
      exact hterm hsleep'
    have : (fire_timer s tid').tasks = setStatus s.tasks tid' TaskStatus.done := by
      by_cases hc : keyContains s.timers tid' = true
      · rw [fire_timer_eq_of_mem htr' hc]
      · have hc' : keyContains s.timers tid' = false := by
          revert hc
          cases keyContains s.timers tid' <;> simp
        rw [fire_timer_eq_of_not_mem htr' hc']
    rw [this, setStatus_lookup, hl]
    simp only [Option.map_some']
    rw [if_neg hne]
  | cancelAll =>
    by_cases hemp : s.timers = []
    · rw [cancel_timers_snd_of_empty hemp]
      exact hl
    · rw [cancel_timers_snd_of_nonempty hemp]
      have hmapeq : (s.tasks.map (fun kv =>
          if kv.1 ∈ s.timers.map (·.1) ∧ kv.2.status = TaskStatus.sleeping then
            (kv.1, { kv.2 with status := TaskStatus.cancelled })
          else kv)) = s.tasks.map (fun kv =>
            (kv.1, if kv.1 ∈ s.timers.map (·.1) ∧ kv.2.status = TaskStatus.sleeping then
              { kv.2 with status := TaskStatus.cancelled } else kv.2)) := by
        congr 1
        funext kv
        by_cases h : kv.1 ∈ s.timers.map (·.1) ∧ kv.2.status = TaskStatus.sleeping
        · simp only [if_pos h]
        · simp only [if_neg h]
      show keyLookup _ tid = some tr
      rw [hmapeq,
        keyLookup_map_adjust
          (fun a v => if a ∈ s.timers.map (·.1) ∧ v.status = TaskStatus.sleeping then
            { v with status := TaskStatus.cancelled } else v) s.tasks tid,
        hl]
      simp only [Option.map_some']
      rw [if_neg (by intro hcon; exact hterm hcon.2)]
  | advance d hd => exact hl

/-- Across one step, any completion-callback invocation present afterwards
was either already present or belongs to a task that was still sleeping
before the step (a fire step requires a sleeping task). -/
lemma step_new_fired {s s' : TimerSys} (hi : TInv s) (h : TStep s s') :
    ∀ u ∈ s'.firedLog, u ∈ s.firedLog ∨
      ∃ tr, keyLookup s.tasks u.id = some tr ∧ tr.status = TaskStatus.sleeping := by
  cases h with
  | set d q =>
    intro u hu
    rw [set_timer_snd] at hu
    exact Or.inl hu
  | fire tid' tr' htr' hsleep' hdl' =>
    intro u hu
    by_cases hc : keyContains s.timers tid' = true
    · rw [fire_timer_eq_of_mem htr' hc] at hu
      rcases List.mem_append.mp hu with hold | hnew
      · exact Or.inl hold
      · simp only [List.mem_singleton] at hnew
        subst hnew
        have := (hi.tasks_id tid' tr' (keyLookup_mem htr')).1
        right
        rw [this]
        exact ⟨tr', htr', hsleep'⟩
    · have hc' : keyContains s.timers tid' = false := by
        revert hc
        cases keyContains s.timers tid' <;> simp
      rw [fire_timer_eq_of_not_mem htr' hc'] at hu
      exact Or.inl hu
  | cancelAll =>
    intro u hu
    by_cases hemp : s.timers = []
    · rw [cancel_timers_snd_of_empty hemp] at hu
      exact Or.inl hu
    · rw [cancel_timers_snd_of_nonempty hemp] at hu
      exact Or.inl hu
  | advance d hd =>
    intro u hu
    exact Or.inl hu

/-- Across one step, any recorded cancellation present afterwards was
either already present or belongs to a task that was still sleeping before
the step (`Task.cancel()` is effective only on a sleeping task). -/
lemma step_new_cancelled {s s' : TimerSys} (_hi : TInv s) (h : TStep s s') :
    ∀ i ∈ s'.cancelledLog, i ∈ s.cancelledLog ∨
      ∃ tr, keyLookup s.tasks i = some tr ∧ tr.status = TaskStatus.sleeping := by
  cases h with
  | set d q =>
    intro i hi'
    rw [set_timer_snd] at hi'
    exact Or.inl hi'
  | fire tid' tr' htr' hsleep' hdl' =>
    intro i hi'
    by_cases hc : keyContains s.timers tid' = true
    · rw [fire_timer_eq_of_mem htr' hc] at hi'
      exact Or.inl hi'
    · have hc' : keyContains s.timers tid' = false := by
        revert hc
        cases keyContains s.timers tid' <;> simp
      rw [fire_timer_eq_of_not_mem htr' hc'] at hi'
      exact Or.inl hi'
  | cancelAll =>
    intro i hi'
    by_cases hemp : s.timers = []
    · rw [cancel_timers_snd_of_empty hemp] at hi'
      exact Or.inl hi'
    · rw [cancel_timers_snd_of_nonempty hemp] at hi'
      rcases List.mem_append.mp hi' with hold | hnew
      · exact Or.inl hold
      · have hmm := List.mem_filter.mp hnew
        obtain ⟨hin, hsl⟩ := hmm
        cases hlk : keyLookup s.tasks i with
        | none =>
          rw [hlk] at hsl
          simp at hsl
        | some tr₀ =>
          rw [hlk] at hsl
          simp only [decide_eq_true_eq] at hsl
          exact Or.inr ⟨tr₀, rfl, hsl⟩
  | advance d hd =>
    intro i hi'
    exact Or.inl hi'

/-- Trace-level stability: once a task's status is terminal (`done` or
`cancelled`), its record never changes again, no further completion
callback is ever invoked for its id, and no further cancellation of it is
ever recorded. -/
lemma terminal_stable_steps {s s' : TimerSys} (hr : TReach s) (htrace : TSteps s s')
    {tid : Nat} {tr : TaskRec} (hl : keyLookup s.tasks tid = some tr)
    (hterm : tr.status ≠ TaskStatus.sleeping) :
    keyLookup s'.tasks tid = some tr ∧
    (∀ u ∈ s'.firedLog, u.id = tid → u ∈ s.firedLog) ∧
    (∀ i ∈ s'.cancelledLog, i = tid → i ∈ s.cancelledLog) := by
  induction htrace with
  | refl => exact ⟨hl, fun u hu _ => hu, fun i hi' _ => hi'⟩
  | tail hab hbc ih =>
    obtain ⟨ihl, ihf, ihc⟩ := ih
    have hrb := TReach.steps hr hab
    have hib := hrb.inv
    refine ⟨terminal_stable_step hib hbc ihl hterm, ?_, ?_⟩
    · intro u hu hid
      rcases step_new_fired hib hbc u hu with hold | ⟨tr', hl', hsl'⟩
      · exact ihf u hold hid
      · rw [hid, ihl] at hl'
        injection hl' with hl'
        rw [← hl'] at hsl'
        exact absurd hsl' hterm
    · intro i hi' hid
      rcases step_new_cancelled hib hbc i hi' with hold | ⟨tr', hl', hsl'⟩
      · exact ihc i hold hid
      · rw [hid, ihl] at hl'
        injection hl' with hl'
        rw [← hl'] at hsl'
        exact absurd hsl' hterm

/-- In an invariant state, an id whose task is no longer sleeping is not in
the active map. -/
lemma terminal_not_in_map {s : TimerSys} (hi : TInv s)
    {tid : Nat} {tr : TaskRec} (hl : keyLookup s.tasks tid = some tr)
    (hterm : tr.status ≠ TaskStatus.sleeping) :
    keyContains s.timers tid = false := by
  by_cases hc : keyContains s.timers tid = true
  · exfalso
    obtain ⟨t, hmem⟩ := (keyContains_iff s.timers tid).mp hc
    have := hi.map_sleeping tid t hmem
    rw [hl] at this
    injection this with this
    rw [this] at hterm
    exact hterm rfl
  · revert hc
    cases keyContains s.timers tid <;> simp

/-- In any reachable state, a timer id never appears both in the fired log
and in the cancelled log: firing and cancellation are mutually exclusive,
at most one ever happens. -/
lemma fired_cancelled_exclusive {s : TimerSys} (hr : TReach s) :
    ∀ u ∈ s.firedLog, u.id ∉ s.cancelledLog := by
  intro u hu hc
  have hi := hr.inv
  have hd := hi.fired_done u hu
  obtain ⟨tr, hl, hcst⟩ := hi.cancelled_cancelled u.id hc
  rw [hd] at hl
  injection hl with hl
  rw [← hl] at hcst
  simp at hcst

lemma keyErase_not_contains {α : Type} (l : List (Nat × α)) (k : Nat) :
    keyContains (keyErase l k) k = false := by
  by_cases hc : keyContains (keyErase l k) k = true
  · obtain ⟨v, hmem⟩ := (keyContains_iff _ _).mp hc
    exact absurd rfl (keyErase_subset_mem hmem).2
  · revert hc
    cases keyContains (keyErase l k) k <;> simp

/-- Completion-callback invocations are never retracted by a step. -/
lemma step_fired_mono {s s' : TimerSys} (h : TStep s s') :
    ∀ u ∈ s.firedLog, u ∈ s'.firedLog := by
  cases h with
  | set d q =>
    intro u hu
    rw [set_timer_snd]
    exact hu
  | fire tid' tr' htr' hsleep' hdl' =>
    intro u hu
    by_cases hc : keyContains s.timers tid' = true
    · rw [fire_timer_eq_of_mem htr' hc]
      exact List.mem_append.mpr (Or.inl hu)
    · have hc' : keyContains s.timers tid' = false := by
        revert hc
        cases keyContains s.timers tid' <;> simp
      rw [fire_timer_eq_of_not_mem htr' hc']
      exact hu
  | cancelAll =>
    intro u hu
    by_cases hemp : s.timers = []
    · rw [cancel_timers_snd_of_empty hemp]
      exact hu
    · rw [cancel_timers_snd_of_nonempty hemp]
      exact hu
  | advance d hd =>
    intro u hu
    exact hu

lemma steps_fired_mono {s s' : TimerSys} (h : TSteps s s') :
    ∀ u ∈ s.firedLog, u ∈ s'.firedLog := by
  induction h with
  | refl => exact fun u hu => hu
  | tail _ hstep ih => exact fun u hu => step_fired_mono hstep u (ih u hu)

lemma filterMap_guard {α β : Type} (p : α → Prop) [DecidablePred p] (f : α → β)
    (l : List α) :
    l.filterMap (fun x => if p x then some (f x) else none) =
      (l.filter (fun x => decide (p x))).map f := by
  induction l with
  | nil => rfl
  | cons x t ih =>
    by_cases h : p x <;> simp [h, ih]

/-- C2: for every reachable state, `cancelAll` reports success with the
count of active timers, clears the active map, cancels every pending task,
a subsequent `list()` reports no timers, the completion callback is never
invoked — then or after any further steps — for a cancelled timer, and a
timer can never be both fired and cancelled (a fire/cancelAll race has
exactly one outcome). -/
theorem cancelAll_spec (s : TimerSys) (hr : TReach s) :
    ((cancel_timers s).1).success = true ∧
    (s.timers ≠ [] →
      dictGet ((cancel_timers s).1).data "cancelled" =
        some (PyVal.PInt s.timers.length)) ∧
    ((cancel_timers s).2).timers = [] ∧
    (∀ tid t, (tid, t) ∈ s.timers →
      keyLookup ((cancel_timers s).2).tasks tid =
        some { timer := t, status := TaskStatus.cancelled }) ∧
    (list_timers (cancel_timers s).2).response = "No timers are running." ∧
    (∀ s'', TSteps (cancel_timers s).2 s'' →
      ∀ tid t, (tid, t) ∈ s.timers → ∀ u ∈ s''.firedLog, u.id ≠ tid) ∧
    (∀ s₂, TReach s₂ → ∀ u ∈ s₂.firedLog, u.id ∉ s₂.cancelledLog) := by
  have hi := hr.inv
  have hreach' : TReach (cancel_timers s).2 := hr.step (TStep.cancelAll s)
  have hcancelled : ∀ tid t, (tid, t) ∈ s.timers →
      keyLookup ((cancel_timers s).2).tasks tid =
        some { timer := t, status := TaskStatus.cancelled } := by
    intro tid t hmem
    have hemp : s.timers ≠ [] := by
      intro hc
      rw [hc] at hmem
      simp at hmem
    rw [cancel_timers_snd_of_nonempty hemp]
    have hsl := hi.map_sleeping tid t hmem
    have hmapeq : (s.tasks.map (fun kv =>
        if kv.1 ∈ s.timers.map (·.1) ∧ kv.2.status = TaskStatus.sleeping then
          (kv.1, { kv.2 with status := TaskStatus.cancelled })
        else kv)) = s.tasks.map (fun kv =>
          (kv.1, if kv.1 ∈ s.timers.map (·.1) ∧ kv.2.status = TaskStatus.sleeping then
            { kv.2 with status := TaskStatus.cancelled } else kv.2)) := by
      congr 1
      funext kv
      by_cases h : kv.1 ∈ s.timers.map (·.1) ∧ kv.2.status = TaskStatus.sleeping
      · simp only [if_pos h]
      · simp only [if_neg h]
    show keyLookup _ tid = _
    rw [hmapeq,
      keyLookup_map_adjust
        (fun a v => if a ∈ s.timers.map (·.1) ∧ v.status = TaskStatus.sleeping then
          { v with status := TaskStatus.cancelled } else v) s.tasks tid,
      hsl]
    simp only [Option.map_some']
    have hmm : tid ∈ s.timers.map (·.1) := List.mem_map.mpr ⟨(tid, t), hmem, rfl⟩
    simp [hmm]
  have hclear : ((cancel_timers s).2).timers = [] := by
    by_cases hemp : s.timers = []
    · rw [cancel_timers_snd_of_empty hemp]
      exact hemp
    · rw [cancel_timers_snd_of_nonempty hemp]
  refine ⟨?_, ?_, hclear, hcancelled, ?_, ?_, ?_⟩
  · by_cases hemp : s.timers = []
    · unfold cancel_timers
      simp [hemp, SkillResult.ok]
    · rw [cancel_timers_fst_of_nonempty hemp]
      rfl
  · intro hemp
    rw [cancel_timers_fst_of_nonempty hemp]
    rfl
  · unfold list_timers
    rw [hclear]
    rfl
  · intro s'' hsteps tid t hmem u hu hid
    have hlk := hcancelled tid t hmem
    have hstable := terminal_stable_steps hreach' hsteps hlk (by simp)
    have hu' := hstable.2.1 u hu hid
    have hfl : ((cancel_timers s).2).firedLog = s.firedLog := by
      by_cases hemp : s.timers = []
      · rw [cancel_timers_snd_of_empty hemp]
      · rw [cancel_timers_snd_of_nonempty hemp]
    rw [hfl] at hu'
    have hd := hi.fired_done u hu'
    rw [hid] at hd
    have hsl := hi.map_sleeping tid t hmem
    rw [hsl] at hd
    injection hd with hd
    have := congrArg TaskRec.status hd
    simp at this
  · intro s₂ hr₂ u hu
    exact fired_cancelled_exclusive hr₂ u hu

/-- Witness for C2: a 5-second timer set at t=0, `cancelAll` called at t=1:
the map is cleared, the count reported is 1, `list()` is empty, and the
task is cancelled. -/
theorem cancelAll_spec_witness :
    TReach exSet5At1 ∧
    ((cancel_timers exSet5At1).2).timers = [] ∧
    (dictGet ((cancel_timers exSet5At1).1).data "cancelled" =
      some (PyVal.PInt 1)) ∧
    (list_timers (cancel_timers exSet5At1).2).response = "No timers are running." := by
  have hreach : TReach exSet5At1 :=
    TReach.step
      (TReach.step (TReach.init 0)
        (TStep.set (TimerSys.init 0) 5 "set a timer for 5 seconds"))
      (TStep.advance exSet5 1 (by norm_num))
  have h := cancelAll_spec exSet5At1 hreach
  refine ⟨hreach, h.2.2.1, ?_, h.2.2.2.2.1⟩
  have hlen : exSet5At1.timers.length = 1 := by decide
  have := h.2.1 (by decide)
  rw [hlen] at this
  exact this

/-- C3: for a reachable state holding a sleeping (never-cancelled) timer
task whose deadline has elapsed, the countdown body is an enabled step;
running it removes the timer from the active map and then invokes the
completion callback exactly once with the captured snapshot (whose id,
name and duration are the creation-time values stored in the map); the
timer stays out of the map in every later state, the callback count for
this id stays exactly one forever, and the timer is never also counted as
cancelled. -/
theorem timer_fire_once (s : TimerSys) (hr : TReach s) (tid : Nat) (tr : TaskRec)
    (htr : keyLookup s.tasks tid = some tr)
    (hsleep : tr.status = TaskStatus.sleeping)
    (hdl : tr.timer.end_time ≤ s.now) :
    TStep s (fire_timer s tid) ∧
    tr.timer.id = tid ∧
    keyLookup s.timers tid = some tr.timer ∧
    (fire_timer s tid).firedLog = s.firedLog ++ [tr.timer] ∧
    keyContains (fire_timer s tid).timers tid = false ∧
    (∀ s'', TSteps (fire_timer s tid) s'' → keyContains s''.timers tid = false) ∧
    ((fire_timer s tid).firedLog.map Timer.id).count tid = 1 ∧
    (∀ s'', TSteps (fire_timer s tid) s'' →
      (s''.firedLog.map Timer.id).count tid = 1) ∧
    (∀ s'', TSteps (fire_timer s tid) s'' → tid ∉ s''.cancelledLog) := by
  have hi := hr.inv
  have hstep : TStep s (fire_timer s tid) := TStep.fire s tid tr htr hsleep hdl
  have hreach' : TReach (fire_timer s tid) := hr.step hstep
  have htid : tr.timer.id = tid := (hi.tasks_id tid tr (keyLookup_mem htr)).1
  have hinmap : (tid, tr.timer) ∈ s.timers :=
    hi.sleeping_in_map tid tr (keyLookup_mem htr) hsleep
  have hc : keyContains s.timers tid = true :=
    (keyContains_iff _ _).mpr ⟨tr.timer, hinmap⟩
  have heq := fire_timer_eq_of_mem htr hc
  have hfired : (fire_timer s tid).firedLog = s.firedLog ++ [tr.timer] := by
    rw [heq]
  have hlookup' : keyLookup (fire_timer s tid).tasks tid =
      some { tr with status := TaskStatus.done } := by
    rw [heq]
    show keyLookup (setStatus s.tasks tid TaskStatus.done) tid = _
    rw [setStatus_lookup, htr]
    simp
  have hterm : ({ tr with status := TaskStatus.done } : TaskRec).status ≠
      TaskStatus.sleeping := by simp
  have hfired_ne : ∀ u ∈ s.firedLog, u.id ≠ tid := by
    intro u hu hcon
    have hd := hi.fired_done u hu
    rw [hcon, htr] at hd
    injection hd with hd
    rw [hd] at hsleep
    simp at hsleep
  have hcount1 : ((fire_timer s tid).firedLog.map Timer.id).count tid = 1 := by
    rw [hfired]
    rw [List.map_append, List.count_append]
    have h0 : (s.firedLog.map Timer.id).count tid = 0 := by
      rw [List.count_eq_zero]
      intro hmem
      obtain ⟨u, hu, hid⟩ := List.mem_map.mp hmem
      exact hfired_ne u hu hid
    rw [h0]
    simp [htid]
  refine ⟨hstep, htid, mem_keyLookup hi.timers_nodup hinmap, hfired, ?_, ?_, hcount1, ?_, ?_⟩
  · rw [heq]
    show keyContains (keyErase s.timers tid) tid = false
    exact keyErase_not_contains s.timers tid
  · intro s'' hsteps
    have hstable := terminal_stable_steps hreach' hsteps hlookup' hterm
    exact terminal_not_in_map (TReach.steps hreach' hsteps).inv hstable.1 hterm
  · intro s'' hsteps
    have hreach'' := TReach.steps hreach' hsteps
    have hmem'' : tr.timer ∈ s''.firedLog := by
      apply steps_fired_mono hsteps
      rw [hfired]
      exact List.mem_append.mpr (Or.inr (by simp))
    have hle : (s''.firedLog.map Timer.id).count tid ≤ 1 :=
      List.nodup_iff_count_le_one.mp hreach''.inv.fired_nodup tid
    have hge : 0 < (s''.firedLog.map Timer.id).count tid := by
      rw [List.count_pos_iff_mem]
      exact List.mem_map.mpr ⟨tr.timer, hmem'', htid⟩
    omega
  · intro s'' hsteps htidmem
    have hstable := terminal_stable_steps hreach' hsteps hlookup' hterm
    have hmem' := hstable.2.2 tid htidmem rfl
    have hcl : (fire_timer s tid).cancelledLog = s.cancelledLog := by
      rw [heq]
    rw [hcl] at hmem'
    obtain ⟨tr₀, hl₀, hc₀⟩ := hi.cancelled_cancelled tid hmem'
    rw [htr] at hl₀
    injection hl₀ with hl₀
    rw [← hl₀] at hc₀
    rw [hsleep] at hc₀
    simp at hc₀

/-- Witness for C3: the 5-second timer set at t=0, clock at t=6: the fire
step is enabled; running it deletes the timer and invokes the callback
once with the snapshot (id 1, name "Timer 1", duration 5). -/
theorem timer_fire_once_witness :
    TReach exSet5At6 ∧
    ((fire_timer exSet5At6 1).firedLog.map Timer.id) = [1] ∧
    ((fire_timer exSet5At6 1).firedLog.map Timer.name) = ["Timer 1"] ∧
    ((fire_timer exSet5At6 1).firedLog.map Timer.duration_seconds) = [5] ∧
    keyContains (fire_timer exSet5At6 1).timers 1 = false ∧
    ((fire_timer exSet5At6 1).firedLog.map Timer.id).count 1 = 1 := by
  have hreach : TReach exSet5At6 :=
    TReach.step
      (TReach.step (TReach.init 0)
        (TStep.set (TimerSys.init 0) 5 "set a timer for 5 seconds"))
      (TStep.advance exSet5 6 (by norm_num))
  have hname : (extract_timer_name "set a timer for 5 seconds").getD
      ("Timer " ++ toString (TimerSys.init 0).nextId) = "Timer 1" := by decide
  have hdl : ((TimerSys.init 0).now + ((5 : Int) : ℚ)) ≤ exSet5At6.now := by
    show ((0 : ℚ) + ((5 : Int) : ℚ)) ≤ (0 : ℚ) + 6
    norm_num
  have h := timer_fire_once exSet5At6 hreach 1
    (TaskRec.mk
      (Timer.mk (TimerSys.init 0).nextId
        ((extract_timer_name "set a timer for 5 seconds").getD
          ("Timer " ++ toString (TimerSys.init 0).nextId))
        5 ((TimerSys.init 0).now + ((5 : Int) : ℚ)))
      TaskStatus.sleeping)
    rfl rfl hdl
  refine ⟨hreach, ?_, ?_, ?_, h.2.2.2.2.1, h.2.2.2.2.2.2.1⟩ <;>
    rw [h.2.2.2.1] <;> simp [hname] <;> rfl

/-- C8 (amended): when the active map is non-empty, `list()` returns a
success result whose count is the full map size and whose response lists,
in insertion order, exactly those active timers whose remaining time —
deadline minus the clock value read at the moment of the call, never a
cached value — is positive, each line reporting that remaining time;
timers whose deadline has already passed are omitted from the listing
(though still counted). -/
theorem list_timers_snapshot (s : TimerSys) (h : s.timers ≠ []) :
    list_timers s =
      SkillResult.ok
        (String.intercalate "\n"
          ("Active timers:" ::
            ((s.timers.filter
                (fun kv => decide (0 < kv.2.end_time - s.now))).map
              (fun kv => "  • " ++ kv.2.name ++ ": " ++
                format_duration (Int.floor (kv.2.end_time - s.now)) ++
                " remaining"))))
        [("count", PyVal.PInt s.timers.length)] := by
  have hlen : s.timers.length ≠ 0 := fun hc => h (List.length_eq_zero.mp hc)
  unfold list_timers
  rw [if_neg hlen]
  have hguard :
      s.timers.filterMap (fun kv =>
        if 0 < kv.2.end_time - s.now then
          some ("  • " ++ kv.2.name ++ ": " ++
            format_duration (Int.floor (kv.2.end_time - s.now)) ++ " remaining")
        else none) =
      (s.timers.filter (fun kv => decide (0 < kv.2.end_time - s.now))).map
        (fun kv => "  • " ++ kv.2.name ++ ": " ++
          format_duration (Int.floor (kv.2.end_time - s.now)) ++ " remaining") :=
    filterMap_guard (fun kv => 0 < kv.2.end_time - s.now)
      (fun kv => "  • " ++ kv.2.name ++ ": " ++
        format_duration (Int.floor (kv.2.end_time - s.now)) ++ " remaining")
      s.timers
  rw [List.singleton_append, hguard]

/-- Witness for C8's amended statement at a concrete pending timer. -/
theorem list_timers_snapshot_witness :
    exSet5At1.timers ≠ [] ∧
    list_timers exSet5At1 =
      SkillResult.ok
        (String.intercalate "\n"
          ("Active timers:" ::
            ((exSet5At1.timers.filter
                (fun kv => decide (0 < kv.2.end_time - exSet5At1.now))).map
              (fun kv => "  • " ++ kv.2.name ++ ": " ++
                format_duration (Int.floor (kv.2.end_time - exSet5At1.now)) ++
                " remaining"))))
        [("count", PyVal.PInt exSet5At1.timers.length)] :=
  ⟨by decide, list_timers_snapshot exSet5At1 (by decide)⟩

/-- C8 counterexample to the claim as stated: a reachable state whose
active map holds one timer (set for 5 seconds at t=0, clock now at t=6,
countdown not yet resumed) for which `list()` reports no remaining time at
all — the response is just the bare header, although the timer is active
and counted. -/
theorem list_timers_omits_expired_timer :
    TReach exSet5At6 ∧
    exSet5At6.timers.length = 1 ∧
    (list_timers exSet5At6).response = "Active timers:" ∧
    dictGet (list_timers exSet5At6).data "count" = some (PyVal.PInt 1) := by
  have hreach : TReach exSet5At6 :=
    TReach.step
      (TReach.step (TReach.init 0)
        (TStep.set (TimerSys.init 0) 5 "set a timer for 5 seconds"))
      (TStep.advance exSet5 6 (by norm_num))
  have hrem : ¬ ((0 : ℚ) <
      ((TimerSys.init 0).now + ((5 : Int) : ℚ)) - exSet5At6.now) := by
    show ¬ ((0 : ℚ) < ((0 : ℚ) + ((5 : Int) : ℚ)) - ((0 : ℚ) + 6))
    norm_num
  have htm : exSet5At6.timers = [((TimerSys.init 0).nextId,
      Timer.mk (TimerSys.init 0).nextId
        ((extract_timer_name "set a timer for 5 seconds").getD
          ("Timer " ++ toString (TimerSys.init 0).nextId))
        5 ((TimerSys.init 0).now + ((5 : Int) : ℚ)))] := rfl
  have hlist : list_timers exSet5At6 =
      SkillResult.ok "Active timers:" [("count", PyVal.PInt 1)] := by
    unfold list_timers
    rw [htm]
    have hfnone : (fun kv : Nat × Timer =>
        if 0 < kv.2.end_time - exSet5At6.now then
          some ("  • " ++ kv.2.name ++ ": " ++
            format_duration (Int.floor (kv.2.end_time - exSet5At6.now)) ++
            " remaining")
        else none) (((TimerSys.init 0).nextId,
          Timer.mk (TimerSys.init 0).nextId
            ((extract_timer_name "set a timer for 5 seconds").getD
              ("Timer " ++ toString (TimerSys.init 0).nextId))
            5 ((TimerSys.init 0).now + ((5 : Int) : ℚ)))) = none := by
      dsimp only
      rw [if_neg hrem]
    simp only [List.length_cons, List.length_nil, Nat.zero_add]
    rw [if_neg one_ne_zero]
    simp only [List.filterMap_cons, hfnone, List.filterMap_nil]
    rfl
  refine ⟨hreach, by decide, ?_, ?_⟩
  · rw [hlist]
    rfl
  · rw [hlist]
    rfl

/-- The SET_PATTERNS loop only returns a non-zero duration. -/
lemma trySetPatterns_pos (ps : List RE) (ql : List Char) (d : Nat)
    (h : trySetPatterns ps ql = some d) : 0 < d := by
  induction ps with
  | nil => simp [trySetPatterns] at h
  | cons p ps ih =>
    unfold trySetPatterns at h
    split at h
    · split at h
      · split at h
        · exact ih h
        · rename_i hz
          injection h with h
          omega
      · exact ih h
    · exact ih h

/-- C10 (amended): whenever `TimerSkill.match` produces extracted entities
whose action is `"set"`, the extracted map also binds `"duration_seconds"`
to a strictly positive integer (the sum of the hour, minute and second
amounts mentioned in the portion of the query matched by the timer-set
pattern); consequently `TimerSkill.execute`'s unguarded subscript
`extracted["duration_seconds"]` cannot fail on the entities produced by
that same `match` call. -/
theorem timer_match_set_duration_positive (query : String)
    (conf : SkillConfidence) (ext : PyDict)
    (hmatch : timerSkillMatch query = (conf, ext))
    (hset : dictGet ext "action" = some (PyVal.PStr "set")) :
    ∃ d : Nat, 0 < d ∧
      dictGet ext "duration_seconds" = some (PyVal.PInt d) ∧
      trySetPatterns SET_PATTERNS (pyLower query).data = some d ∧
      ∀ s : TimerSys, timerSkillExecute s query ext =
        Except.ok (set_timer s d query) := by
  cases htry : trySetPatterns SET_PATTERNS (pyLower query).data with
  | some duration =>
    simp only [timerSkillMatch, htry] at hmatch
    injection hmatch with hconf hext
    subst hext
    refine ⟨duration, trySetPatterns_pos _ _ _ htry, by rfl, rfl, ?_⟩
    intro s
    rfl
  | none =>
    exfalso
    simp only [timerSkillMatch, htry] at hmatch
    by_cases hl :
        (LIST_PATTERNS.any fun p => (reSearch p (pyLower query).data).isSome) = true
    · rw [if_pos hl] at hmatch
      injection hmatch with hconf hext
      subst hext
      exact absurd hset (by decide)
    · rw [if_neg hl] at hmatch
      by_cases hcn :
          (CANCEL_PATTERNS.any fun p => (reSearch p (pyLower query).data).isSome) = true
      · rw [if_pos hcn] at hmatch
        injection hmatch with hconf hext
        subst hext
        exact absurd hset (by decide)
      · rw [if_neg hcn] at hmatch
        by_cases htm : pyContains (String.mk (pyLower query).data) "timer" = true
        · rw [if_pos htm] at hmatch
          injection hmatch with hconf hext
          subst hext
          exact absurd hset (by decide)
        · rw [if_neg htm] at hmatch
          injection hmatch with hconf hext
          subst hext
          exact absurd hset (by decide)

/-- Witness for C10's amended statement at the query
"set a timer for 5 minutes" (duration 300). -/
theorem timer_match_set_duration_positive_witness :
    (timerSkillMatch "set a timer for 5 minutes" =
      (SkillConfidence.HIGH,
        [("action", PyVal.PStr "set"), ("duration_seconds", PyVal.PInt 300)])) ∧
    (∃ d : Nat, 0 < d ∧
      dictGet [("action", PyVal.PStr "set"),
        ("duration_seconds", PyVal.PInt 300)] "duration_seconds" =
        some (PyVal.PInt d) ∧
      trySetPatterns SET_PATTERNS (pyLower "set a timer for 5 minutes").data = some d ∧
      ∀ s : TimerSys, timerSkillExecute s "set a timer for 5 minutes"
          [("action", PyVal.PStr "set"), ("duration_seconds", PyVal.PInt 300)] =
        Except.ok (set_timer s d "set a timer for 5 minutes")) :=
  ⟨by decide,
   timer_match_set_duration_positive "set a timer for 5 minutes"
     SkillConfidence.HIGH
     [("action", PyVal.PStr "set"), ("duration_seconds", PyVal.PInt 300)]
     (by decide) (by decide)⟩

/-- C10 counterexample to the claim as stated: on the query
"3 seconds set a timer for 2 minutes", `match` extracts
duration_seconds = 120 — the amounts inside the matched portion
"set a timer for 2 minutes" — while the hour, minute and second amounts
mentioned in the query sum to 123 (the leading "3 seconds" lies outside
the matched portion), so the extracted duration is not that sum. -/
theorem timer_match_duration_not_query_sum :
    timerSkillMatch "3 seconds set a timer for 2 minutes" =
      (SkillConfidence.HIGH,
        [("action", PyVal.PStr "set"), ("duration_seconds", PyVal.PInt 120)]) ∧
    parse_duration "3 seconds set a timer for 2 minutes" = some 123 ∧
    (120 : Int) ≠ (123 : Int) := by
  refine ⟨by decide, by decide, by decide⟩

/-- C4: whenever the coordinator speaks (TTS present, wake detector
present), the detector is paused strictly before synthesis begins; after
synthesis it waits the fixed 0.5 s decay, then flushes — discards, does not
process — everything queued in the pipe (frames present before the pause
and frames arriving during playback and decay alike), and only after the
flush resumes detection; the final pipe and model state are empty, so any
later read sees only frames that arrive after the resume, and no frame
captured before or during the pause is ever replayed into a subsequent
wake check or capture window. Moreover, in general, a frame delivered to
`process_audio` while the detector is paused is discarded with no state
change at all (not queued, not fed to the model). -/
theorem speak_echo_suppression (ttsAvailable wakewordPresent : Bool)
    (st : OWWDetector) (text : String) (ttsOk : Bool)
    (fTts fDecay : List Frame)
    (htts : ttsAvailable = true) (hww : wakewordPresent = true) :
    (OllieAssistant.speak ttsAvailable wakewordPresent st text ttsOk fTts fDecay).2 =
      [SpeakEvent.pausedDetection, SpeakEvent.synthesized text ttsOk,
       SpeakEvent.sleptDecay (1/2), SpeakEvent.flushedBuffer,
       SpeakEvent.resumedDetection] ∧
    (OllieAssistant.speak ttsAvailable wakewordPresent st text ttsOk fTts fDecay).1.pipe
      = [] ∧
    (OllieAssistant.speak ttsAvailable wakewordPresent st text ttsOk fTts fDecay).1.modelHistory
      = [] ∧
    (OllieAssistant.speak ttsAvailable wakewordPresent st text ttsOk fTts fDecay).1.paused
      = false ∧
    (∀ fs : List Frame,
      (((OllieAssistant.speak ttsAvailable wakewordPresent st text ttsOk
          fTts fDecay).1).arrive fs).pipe = fs) ∧
    (∀ (st₂ : OWWDetector) (chunk : Frame) (score threshold : ℚ),
      st₂.paused = true →
        st₂.process_audio chunk score threshold = (false, st₂)) := by
  subst htts
  subst hww
  refine ⟨rfl, rfl, rfl, rfl, fun fs => rfl, ?_⟩
  intro st₂ chunk score threshold hp
  unfold OWWDetector.process_audio
  rw [if_pos (Or.inr hp)]

/-- Witness for C4: a detector with stale frames already queued, more
frames arriving during playback and decay; after `speak` the pipe is empty
and detection has resumed. -/
theorem speak_echo_suppression_witness :
    ((OllieAssistant.speak true true
        { loaded := true, paused := false, pipe := [[7]], modelHistory := [[3]] }
        "hello" true [[8], [9]] [[10]]).2 =
      [SpeakEvent.pausedDetection, SpeakEvent.synthesized "hello" true,
       SpeakEvent.sleptDecay (1/2), SpeakEvent.flushedBuffer,
       SpeakEvent.resumedDetection]) ∧
    ((OllieAssistant.speak true true
        { loaded := true, paused := false, pipe := [[7]], modelHistory := [[3]] }
        "hello" true [[8], [9]] [[10]]).1.pipe = []) ∧
    ((OllieAssistant.speak true true
        { loaded := true, paused := false, pipe := [[7]], modelHistory := [[3]] }
        "hello" true [[8], [9]] [[10]]).1.paused = false) := by
  have h := speak_echo_suppression true true
    { loaded := true, paused := false, pipe := [[7]], modelHistory := [[3]] }
    "hello" true [[8], [9]] [[10]] rfl rfl
  exact ⟨h.1, h.2.1, h.2.2.2.1⟩

/-- C9 (amended): none of the tuning thresholds governing the voice loop —
wake sensitivity, capture timeout, the VAD high and low amplitude levels,
the minimum speech-frame count, the silence-duration stop threshold, and
the post-speech decay interval — is taken from the externally supplied
configuration: as functions of the settings they are constant, equal to
the embedded literals 0.5/0.3, 5.0 (called with 6.0), 500, 300, 15, 0.8
and 0.5; changing any of them requires a code change. -/
theorem voice_tuning_embedded_constants (s₁ s₂ : Settings) (b : Bool) :
    voiceTuning s₁ = voiceTuning s₂ ∧
    voiceTuning s₁ =
      { wake_threshold_default := 1/2,
        wake_threshold_custom := 3/10,
        capture_timeout_default := 5,
        capture_timeout_used := 6,
        vad_high_level := 500,
        vad_low_level := 300,
        min_speech_chunks := 15,
        silence_threshold := 8/10,
        post_speech_decay := 1/2 } ∧
    wakeThresholdUsed s₁ b = wakeThresholdUsed s₂ b ∧
    wakeThresholdUsed s₁ b = (if b then 3/10 else 1/2) :=
  ⟨rfl, rfl, rfl, rfl⟩

/-- C9 counterexample to the claim as stated: two settings that differ in
the configured wake threshold (0.5 versus 0.9) produce identical voice-loop
tuning, and the wake threshold actually passed to the detector is 0.5/0.3
regardless — in particular it is not the configured 0.9 — so the
thresholds are not taken from external configuration. -/
theorem voice_tuning_ignores_settings :
    ({ } : Settings).wake_word_threshold ≠
      ({ wake_word_threshold := 9/10 } : Settings).wake_word_threshold ∧
    voiceTuning { } = voiceTuning { wake_word_threshold := 9/10 } ∧
    wakeThresholdUsed { wake_word_threshold := 9/10 } false = 1/2 ∧
    wakeThresholdUsed { wake_word_threshold := 9/10 } true = 3/10 ∧
    wakeThresholdUsed { wake_word_threshold := 9/10 } false ≠
      ({ wake_word_threshold := 9/10 } : Settings).wake_word_threshold := by
  refine ⟨by norm_num, rfl, rfl, rfl, by norm_num [wakeThresholdUsed]⟩
